import Mathlib

/-!
Verification of the phtui scraping/extraction/reconciliation/caching core.

The Go source is shallowly embedded:
* Go `string` is Lean `String`; scanners work over `List Char` (the pages
  handled by the program are ASCII-dominated, where byte and character
  indices coincide).
* Go `int` is Lean `Int` (the program's quantities are far below 2^63,
  so machine overflow cannot occur on reachable values).
* The `net/html` / goquery DOM is a rose tree `Node`; `goquery.Find` is a
  pre-order traversal carrying ancestor context, `Closest` walks that
  context.  The HTML tokenizer itself ("raw bytes to tree") is the trusted
  boundary of the embedding: parsers receive both the raw text and the tree
  obtained from it, exactly as the Go code re-reads the same bytes twice.
* Go regexp scanning is embedded as deterministic literal/character-class
  scanners; all patterns mined by the program are anchored by long literal
  markers, for which leftmost-first regexp semantics coincides with the
  scanners written here.
-/

namespace Phtui

set_option maxRecDepth 40000

/-! ## Go string primitives -/

/-- Whether `pat` is a prefix of `cs` (char-list form). -/
def charsStartWith : List Char → List Char → Bool
  | [], _ => true
  | _ :: _, [] => false
  | p :: ps, c :: cs => p == c && charsStartWith ps cs

/-- Go `strings.HasPrefix` (char-list based so that the kernel can
evaluate it). -/
def goStartsWith (s pre : String) : Bool :=
  charsStartWith pre.data s.data

/-- Drop the first `n` characters. -/
def strDrop (s : String) (n : Nat) : String :=
  String.mk (s.data.drop n)

/-- Go `strings.TrimPrefix`: drop `pre` if it is a prefix, else unchanged. -/
def dropStart (s pre : String) : String :=
  if goStartsWith s pre then strDrop s pre.length else s

/-- First index at which `pat` occurs in `cs`; Go `strings.Index` (char units). -/
def idxOfChars (cs pat : List Char) : Option Nat :=
  match cs with
  | [] => if pat.isEmpty then some 0 else none
  | _ :: rest =>
    if charsStartWith pat cs then some 0
    else match idxOfChars rest pat with
         | some i => some (i + 1)
         | none => none

/-- Go `strings.Contains` (substring search). -/
def containsStr (s pat : String) : Bool :=
  (idxOfChars s.data pat.data).isSome

/-- Go `strings.Index`, -1 encoded as `none`. -/
def strIndex (s pat : String) : Option Nat :=
  idxOfChars s.data pat.data

/-- ASCII lower-casing, Go `strings.ToLower` on the ASCII pages handled here. -/
def lowerStr (s : String) : String := String.mk (s.data.map Char.toLower)

/-- Go `strings.TrimSpace` (ASCII whitespace). -/
def trimStr (s : String) : String :=
  String.mk (((s.data.dropWhile Char.isWhitespace).reverse.dropWhile Char.isWhitespace).reverse)

/-- Value of a digit string. -/
def digitsToInt (ds : List Char) : Int :=
  ds.foldl (fun acc c => acc * 10 + (c.toNat - 48 : Int)) 0

/-- Go `strconv.Atoi`: optional sign then one or more digits, else failure. -/
def atoiChars : List Char → Option Int
  | [] => none
  | c :: rest =>
    if c = '-' then
      if rest ≠ [] && rest.all Char.isDigit then some (-(digitsToInt rest)) else none
    else if c = '+' then
      if rest ≠ [] && rest.all Char.isDigit then some (digitsToInt rest) else none
    else if (c :: rest).all Char.isDigit then some (digitsToInt (c :: rest))
    else none

def atoi (s : String) : Option Int := atoiChars s.data

/-- `parseCount` (leaderboard.go): strip commas, Atoi, 0 on failure. -/
def parseCount (s : String) : Int :=
  (atoi (String.mk (s.data.filter (fun c => c ≠ ',')))).getD 0

/-- Digits of a char-list prefix: returns (digits, rest). -/
def spanDigits (cs : List Char) : List Char × List Char :=
  (cs.takeWhile Char.isDigit, cs.dropWhile Char.isDigit)


/-- Go `strings.Trim(s, "/")`. -/
def trimSlashes (s : String) : String :=
  String.mk ((s.data.dropWhile (· = '/')).reverse.dropWhile (· = '/') |>.reverse)

/-- Separator-delimited fields (Go/cascadia class-list splitting;
`String.split` semantics, written structurally). -/
def splitOnPred (cs : List Char) (p : Char → Bool) : List (List Char) :=
  match cs with
  | [] => [[]]
  | c :: rest =>
    if p c then [] :: splitOnPred rest p
    else
      match splitOnPred rest p with
      | [] => [[c]]
      | f :: fs => (c :: f) :: fs

/-- Go `strings.Join` with a separator. -/
def joinWith (sep : String) : List String → String
  | [] => ""
  | [x] => x
  | x :: rest => x ++ sep ++ joinWith sep rest

/-- Go `strings.SplitN(s, sep, 2)` first component. -/
def splitN2First (s sep : String) : String :=
  match strIndex s sep with
  | some i => String.mk (s.data.take i)
  | none => s

/-- `decodeJSONEscaped` (leaderboard.go): `strconv.Unquote` of the quoted
capture, original string on failure.  The escapes produced by the hydration
payload are the JSON ones handled here; a capture containing an invalid
escape (or a raw quote, impossible for a `[^"]` capture) is returned as-is,
exactly like Go's failure branch. -/
def unescapeChars : List Char → Option (List Char)
  | [] => some []
  | '\\' :: e :: rest =>
      (match e with
       | '"' => (unescapeChars rest).map ('"' :: ·)
       | '\\' => (unescapeChars rest).map ('\\' :: ·)
       | '/' => (unescapeChars rest).map ('/' :: ·)
       | 'n' => (unescapeChars rest).map ('\n' :: ·)
       | 't' => (unescapeChars rest).map ('\t' :: ·)
       | 'r' => (unescapeChars rest).map ('\r' :: ·)
       | 'u' =>
         match rest with
         | a :: b :: c :: d :: rest2 =>
           if [a, b, c, d].all (fun ch => ch.isDigit || ('a' ≤ ch && ch ≤ 'f') || ('A' ≤ ch && ch ≤ 'F')) then
             let hv : Char → Nat := fun ch =>
               if ch.isDigit then ch.toNat - 48
               else if 'a' ≤ ch && ch ≤ 'f' then ch.toNat - 87
               else ch.toNat - 55
             let n := ((hv a * 16 + hv b) * 16 + hv c) * 16 + hv d
             if n < 0xd800 ∨ 0xdfff < n ∧ n < 0x110000 then
               (unescapeChars rest2).map (Char.ofNat n :: ·)
             else none
           else none
         | _ => none
       | _ => none)
  | '"' :: _ => none
  | c :: rest => (unescapeChars rest).map (c :: ·)

def decodeJSONEscaped (s : String) : String :=
  match unescapeChars s.data with
  | some cs => String.mk cs
  | none => s

/-! ## DOM model (net/html tree as seen through goquery) -/

/-- A parsed HTML node: an element with tag name, attributes in document
order, and children; or a text node. -/
inductive Node where
  | elem (tag : String) (attrs : List (String × String)) (children : List Node)
  | text (s : String)
deriving Inhabited

/-- First attribute with the given key (Go `html.Node` attribute lookup /
`Selection.Attr` on a single node). -/
def Node.attrVal : Node → String → Option String
  | .elem _ attrs _, key => (attrs.find? (fun a => a.1 == key)).map (·.2)
  | .text _, _ => none

def Node.isElem : Node → Bool
  | .elem _ _ _ => true
  | .text _ => false

def Node.tagIs (n : Node) (t : String) : Bool :=
  match n with
  | .elem tag _ _ => tag == t
  | .text _ => false

/-- `[key='val']` attribute-equality selector test. -/
def attrEq (n : Node) (key val : String) : Bool :=
  match n.attrVal key with
  | some v => v == val
  | none => false

/-- `[key^='pre']` attribute-prefix selector test. -/
def attrStarts (n : Node) (key pre : String) : Bool :=
  match n.attrVal key with
  | some v => goStartsWith v pre
  | none => false

/-- `[key*='sub']` attribute-substring selector test. -/
def attrHas (n : Node) (key sub : String) : Bool :=
  match n.attrVal key with
  | some v => containsStr v sub
  | none => false

/-- `.cls` class selector test: the whitespace-separated class list
contains `cls` (cascadia semantics). -/
def classHasAttr (n : Node) (cls : String) : Bool :=
  match n.attrVal "class" with
  | some v => ((splitOnPred v.data Char.isWhitespace).map String.mk).contains cls
  | none => false

mutual
/-- goquery `Selection.Text()` of one node: concatenation of all descendant
text nodes in document order. -/
def Node.textContent : Node → String
  | .text s => s
  | .elem _ _ cs => textContentList cs

def textContentList : List Node → String
  | [] => ""
  | c :: cs => c.textContent ++ textContentList cs
end

/-- Ancestor context of a node: list of `(parent, index among parent's
children)` pairs, nearest parent first. -/
abbrev Ctx := List (Node × Nat)

/-- A goquery selection: matched nodes with their ancestor contexts, in
document order. -/
abbrev Sel := List (Node × Ctx)

mutual
/-- Pre-order traversal collecting every element (with context) satisfying
`p`; the node itself is tested first, then its children.  This is goquery's
`Find` match order. -/
def findCtx (p : Node → Ctx → Bool) (n : Node) (ctx : Ctx) : Sel :=
  match n with
  | .elem _ _ cs =>
      (if p n ctx then [(n, ctx)] else []) ++ findKids p cs n ctx 0
  | .text _ => []

def findKids (p : Node → Ctx → Bool) (cs : List Node) (par : Node) (ctx : Ctx) (i : Nat) : Sel :=
  match cs with
  | [] => []
  | c :: rest => findCtx p c ((par, i) :: ctx) ++ findKids p rest par ctx (i + 1)
end

mutual
/-- All elements of the subtree rooted at `n` (including `n`). -/
def Node.allElems : Node → List Node
  | .text _ => []
  | .elem t a cs => .elem t a cs :: allElemsList cs

def allElemsList : List Node → List Node
  | [] => []
  | c :: rest => c.allElems ++ allElemsList rest
end

/-- `doc.Find(sel)`: search the whole document (root element included). -/
def docFind (p : Node → Ctx → Bool) (doc : Node) : Sel :=
  findCtx p doc []

/-- Find among the strict descendants of one selection entry
(`Selection.Find`), keeping global ancestor context. -/
def findDesc (p : Node → Ctx → Bool) : Node × Ctx → Sel
  | (n, ctx) =>
    match n with
    | .elem _ _ cs => findKids p cs n ctx 0
    | .text _ => []

/-- `Selection.Find` over a multi-node selection. -/
def selFind (p : Node → Ctx → Bool) (sel : Sel) : Sel :=
  (sel.map (findDesc p)).flatten

/-- `Selection.First()` (empty selection stays empty). -/
def selFirst (sel : Sel) : Sel := sel.take 1

/-- `Selection.Text()`: concatenated text of every matched node. -/
def selText (sel : Sel) : String :=
  sel.foldl (fun acc e => acc ++ e.1.textContent) ""

/-- `Selection.Attr(key)` : attribute of the first matched node. -/
def selAttr (sel : Sel) (key : String) : Option String :=
  match sel with
  | [] => none
  | (n, _) :: _ => n.attrVal key

/-- Self followed by ancestors, each with its own context. -/
def selfAndAncestors : Node × Ctx → List (Node × Ctx)
  | (n, ctx) =>
    (n, ctx) ::
      (match ctx with
       | [] => []
       | (par, _) :: rest => selfAndAncestors (par, rest))

/-- goquery `Closest`: nearest of self-and-ancestors matching `p`. -/
def closest (e : Node × Ctx) (p : Node → Bool) : Option (Node × Ctx) :=
  (selfAndAncestors e).find? (fun x => p x.1)

/-- goquery `Parent()`. -/
def parentOf : Node × Ctx → Option (Node × Ctx)
  | (_, []) => none
  | (_, (par, _) :: rest) => some (par, rest)

/-- goquery `Prev()`: nearest preceding sibling element. -/
def prevSibling : Node × Ctx → Option (Node × Ctx)
  | (_, []) => none
  | (_, (par, i) :: rest) =>
    match par with
    | .text _ => none
    | .elem _ _ cs =>
      let before := (cs.take i).enum
      ((before.filter (fun x => x.2.isElem)).getLast?).map
        (fun x => (x.2, (par, x.1) :: rest))

/-- goquery `Next()`: nearest following sibling element. -/
def nextSibling : Node × Ctx → Option (Node × Ctx)
  | (_, []) => none
  | (_, (par, i) :: rest) =>
    match par with
    | .text _ => none
    | .elem _ _ cs =>
      let after := cs.enum.drop (i + 1)
      ((after.filter (fun x => x.2.isElem)).head?).map
        (fun x => (x.2, (par, x.1) :: rest))

/-! ## types package -/

/-- `types.Product` (scripts/install-mcp-local.sh embedded types source). -/
structure Product where
  name : String
  tagline : String
  categories : List String
  voteCount : Int
  commentCount : Int
  slug : String
  thumbnailURL : String
  rank : Int
deriving Repr, DecidableEq, Inhabited

/-- `types.NewProduct`. -/
def NewProduct (name tagline : String) (categories : List String)
    (voteCount commentCount : Int) (slug thumbnailURL : String) (rank : Int) : Product :=
  ⟨name, tagline, categories, voteCount, commentCount, slug, thumbnailURL, rank⟩

/-- Modelled from the spec: `types.ProConTag` — the current types package is
not under src/ (only an older revision is); fields follow spec §3
("`name`, `tagType`, `count`") and the call sites in scraper/product.go and
mcpsrv/dto/convert.go. -/
structure ProConTag where
  name : String
  tagType : String
  count : Int
deriving Repr, DecidableEq, Inhabited

/-- Modelled from the spec: `types.NewProConTag` constructor. -/
def NewProConTag (name tagType : String) (count : Int) : ProConTag :=
  ⟨name, tagType, count⟩

/-- Modelled from the spec: `types.ProductDetail` of the current types
package (src/ holds only an older revision without the last six fields);
fields follow spec §3 and the constructor call in scraper/product.go.
`rating` is carried as a rational (Go float64; the decimal literals on the
pages are exact in ℚ), `launchDate` as optional epoch seconds (Go
`time.Time`, zero value = `none`). -/
structure ProductDetail where
  product : Product
  description : String
  rating : ℚ
  reviewCount : Int
  followerCount : Int
  makerComment : String
  websiteURL : String
  categories : List String
  socialLinks : List String
  launchDate : Option Int
  makerName : String
  makerProfileURL : String
  proConTags : List ProConTag
  pricingInfo : String
deriving Repr, DecidableEq, Inhabited

/-- Modelled from the spec: `types.NewProductDetail` (14-argument current
form, argument order as at the call site in scraper/product.go). -/
def NewProductDetail (product : Product) (description : String) (rating : ℚ)
    (reviewCount followerCount : Int) (makerComment websiteURL : String)
    (categories socialLinks : List String) (launchDate : Option Int)
    (makerName makerProfileURL : String) (proConTags : List ProConTag)
    (pricingInfo : String) : ProductDetail :=
  ⟨product, description, rating, reviewCount, followerCount, makerComment,
   websiteURL, categories, socialLinks, launchDate, makerName,
   makerProfileURL, proConTags, pricingInfo⟩

/-- `types.CategoryLink`. -/
structure CategoryLink where
  name : String
  slug : String
deriving Repr, DecidableEq, Inhabited

/-- `types.NewCategoryLink`. -/
def NewCategoryLink (name slug : String) : CategoryLink := ⟨name, slug⟩

/-! ## Period and calendar dates (types package / Go time) -/

/-- `types.Period`. -/
inductive Period where
  | Daily
  | Weekly
  | Monthly
deriving Repr, DecidableEq, Inhabited

/-- A calendar date, standing for the Go `time.Time` arguments (wall-clock
components are irrelevant to every use in the core). -/
structure Date where
  year : Int
  month : Int
  day : Int
deriving Repr, DecidableEq, Inhabited

/-- Days from civil epoch 1970-01-01 (proleptic Gregorian); the standard
days-from-civil algorithm, matching Go `time`'s internal date arithmetic. -/
def daysFromCivil (y m d : Int) : Int :=
  let y' := if m ≤ 2 then y - 1 else y
  let era := (if 0 ≤ y' then y' else y' - 399) / 400
  let yoe := y' - era * 400
  let mp := (m + 9) % 12
  let doy := (153 * mp + 2) / 5 + d - 1
  let doe := yoe * 365 + yoe / 4 - yoe / 100 + doy
  era * 146097 + doe - 719468

/-- Inverse of `daysFromCivil`. -/
def civilFromDays (z : Int) : Int × Int × Int :=
  let z' := z + 719468
  let era := (if 0 ≤ z' then z' else z' - 146096) / 146097
  let doe := z' - era * 146097
  let yoe := (doe - doe / 1460 + doe / 36524 - doe / 146096) / 365
  let y := yoe + era * 400
  let doy := doe - (365 * yoe + yoe / 4 - yoe / 100)
  let mp := (5 * doy + 2) / 153
  let d := doy - (153 * mp + 2) / 5 + 1
  let m := if mp < 10 then mp + 3 else mp - 9
  (if m ≤ 2 then y + 1 else y, m, d)

/-- Go `Weekday()`: Sunday = 0. 1970-01-01 was a Thursday. -/
def weekdayOfDays (z : Int) : Int := (z + 4) % 7

/-- Go `time.Time.ISOWeek()`: move to the Thursday of the ISO week
(weeks run Monday..Sunday), then the week is `yday/7 + 1` of that
Thursday's year, `yday` zero-based. -/
def isoWeek (date : Date) : Int × Int :=
  let z := daysFromCivil date.year date.month date.day
  let wd := weekdayOfDays z
  let d := if 4 - wd == 4 then -3 else 4 - wd
  let zThu := z + d
  let (y, m, dd) := civilFromDays zThu
  let yday := zThu - daysFromCivil y 1 1
  let _ := (m, dd)
  (y, yday / 7 + 1)

/-- `Period.URLPath` (types package): deterministic leaderboard URL path.
Daily: `/leaderboard/daily/YYYY/M/D`; Weekly: `/leaderboard/weekly/YYYY/W`
(ISO week); Monthly: `/leaderboard/monthly/YYYY/M` — Go `%d` formatting,
i.e. no leading zeros. -/
def Period.URLPath (p : Period) (date : Date) : String :=
  match p with
  | .Daily =>
      "/leaderboard/daily/" ++ toString date.year ++ "/" ++
        toString date.month ++ "/" ++ toString date.day
  | .Weekly =>
      let (_, week) := isoWeek date
      "/leaderboard/weekly/" ++ toString date.year ++ "/" ++ toString week
  | .Monthly =>
      "/leaderboard/monthly/" ++ toString date.year ++ "/" ++ toString date.month

/-! ## Generic scanners standing for the `regexp` calls

Every pattern the miners use starts with a long literal marker; for such
patterns Go's leftmost-first non-overlapping `FindAll` / `Find` semantics
is: try each start position left to right, emit the match and resume after
its end.  A matcher takes the suffix at a candidate position and returns
the captured value plus the suffix after the match end. -/

/-- First match of `m` anywhere in `cs` (Go `FindStringSubmatch`). -/
def scanFirst {α : Type} (m : List Char → Option (α × List Char)) : List Char → Option α
  | [] => none
  | c :: rest =>
    match m (c :: rest) with
    | some (a, _) => some a
    | none => scanFirst m rest

/-- All non-overlapping matches, resuming after each match end
(Go `FindAllStringSubmatch`). -/
def scanAllAux {α : Type} (m : List Char → Option (α × List Char)) :
    Nat → List Char → List α
  | 0, _ => []
  | _ + 1, [] => []
  | fuel + 1, c :: rest =>
    match m (c :: rest) with
    | some (a, after) =>
        if after.length < (c :: rest).length then a :: scanAllAux m fuel after
        else a :: scanAllAux m fuel rest
    | none => scanAllAux m fuel rest

def scanAll {α : Type} (m : List Char → Option (α × List Char)) (cs : List Char) : List α :=
  scanAllAux m cs.length cs

/-- All matches together with their start and end positions
(Go `FindAllStringSubmatchIndex`). -/
def scanAllPosAux {α : Type} (m : List Char → Option (α × List Char)) :
    Nat → List Char → Nat → List (Nat × α × Nat)
  | 0, _, _ => []
  | _ + 1, [], _ => []
  | fuel + 1, c :: rest, pos =>
    match m (c :: rest) with
    | some (a, after) =>
        let len := (c :: rest).length - after.length
        if after.length < (c :: rest).length then
          (pos, a, pos + len) :: scanAllPosAux m fuel after (pos + len)
        else (pos, a, pos + len) :: scanAllPosAux m fuel rest (pos + 1)
    | none => scanAllPosAux m fuel rest (pos + 1)

def scanAllPos {α : Type} (m : List Char → Option (α × List Char))
    (cs : List Char) : List (Nat × α × Nat) :=
  scanAllPosAux m cs.length cs 0

/-- Consume an exact literal. -/
def eatLit (pat : String) (cs : List Char) : Option (List Char) :=
  if charsStartWith pat.data cs then some (cs.drop pat.data.length) else none

/-- Consume `[^"]+`. -/
def eatNonQuote1 (cs : List Char) : Option (List Char × List Char) :=
  let cap := cs.takeWhile (fun c => c ≠ '"')
  if cap.isEmpty then none else some (cap, cs.drop cap.length)

/-- Consume `[^"]*`. -/
def eatNonQuote0 (cs : List Char) : List Char × List Char :=
  let cap := cs.takeWhile (fun c => c ≠ '"')
  (cap, cs.drop cap.length)

/-- Consume `\d+`. -/
def eatDigits1 (cs : List Char) : Option (List Char × List Char) :=
  let cap := cs.takeWhile Char.isDigit
  if cap.isEmpty then none else some (cap, cs.drop cap.length)

/-- Consume `\w+` (regexp word characters). -/
def eatWord1 (cs : List Char) : Option (List Char × List Char) :=
  let isW : Char → Bool := fun c =>
    c.isAlpha || c.isDigit || c = '_'
  let cap := cs.takeWhile isW
  if cap.isEmpty then none else some (cap, cs.drop cap.length)

/-! ## Hydration miner for the leaderboard (leaderboard.go) -/

/-- Start marker of a `homefeedItems` edges block. -/
def homefeedMarker : String :=
  "\"homefeedItems\":\x7b\"__typename\":\"HomefeedItemConnection\",\"edges\":["

/-- End marker: the paired `pageInfo` object. -/
def pageInfoEndMarker : String :=
  "],\"pageInfo\":\x7b\"__typename\":\"PageInfo\""

/-- The outer loop of `parseHydrationLeaderboardProducts`: every
`homefeedItems` edges blob, delimited by its paired page-info marker;
when an opening marker has no closing marker the search resumes right
after the opening marker, as in the Go loop. -/
def hydrationBlocksAux : Nat → List Char → List (List Char)
  | 0, _ => []
  | fuel + 1, cs =>
    match idxOfChars cs homefeedMarker.data with
    | none => []
    | some i =>
      let rest := cs.drop (i + homefeedMarker.data.length)
      match idxOfChars rest pageInfoEndMarker.data with
      | none => hydrationBlocksAux fuel rest
      | some j => rest.take j :: hydrationBlocksAux fuel (rest.drop j)

def hydrationBlocks (cs : List Char) : List (List Char) :=
  hydrationBlocksAux (cs.length + 1) cs

/-- `hydrationPostRe`:
`"__typename":"Post","id":"[^"]+","name":"([^"]+)","slug":"[^"]+","tagline":"([^"]*)"`. -/
def matchPost (cs : List Char) : Option ((String × String) × List Char) := do
  let r1 ← eatLit "\"__typename\":\"Post\",\"id\":\"" cs
  let (_, r2) ← eatNonQuote1 r1
  let r3 ← eatLit "\",\"name\":\"" r2
  let (nm, r4) ← eatNonQuote1 r3
  let r5 ← eatLit "\",\"slug\":\"" r4
  let (_, r6) ← eatNonQuote1 r5
  let r7 ← eatLit "\",\"tagline\":\"" r6
  let (tg, r8) := eatNonQuote0 r7
  let r9 ← eatLit "\"" r8
  return ((String.mk nm, String.mk tg), r9)

/-- `productSlugRe`:
`"product":\{"__typename":"Product","id":"[^"]+","slug":"([^"]+)"`. -/
def matchProductSlug (cs : List Char) : Option (String × List Char) := do
  let r1 ← eatLit "\"product\":\x7b\"__typename\":\"Product\",\"id\":\"" cs
  let (_, r2) ← eatNonQuote1 r1
  let r3 ← eatLit "\",\"slug\":\"" r2
  let (sl, r4) ← eatNonQuote1 r3
  let r5 ← eatLit "\"" r4
  return (String.mk sl, r5)

/-- A quoted decimal field such as `"dailyRank":"(\d+)"`. -/
def matchQuotedInt (key : String) (cs : List Char) : Option (String × List Char) := do
  let r1 ← eatLit ("\"" ++ key ++ "\":\"") cs
  let (ds, r2) ← eatDigits1 r1
  let r3 ← eatLit "\"" r2
  return (String.mk ds, r3)

/-- A bare decimal field such as `"latestScore":(\d+)`. -/
def matchBareInt (key : String) (cs : List Char) : Option (String × List Char) := do
  let r1 ← eatLit ("\"" ++ key ++ "\":") cs
  let (ds, r2) ← eatDigits1 r1
  return (String.mk ds, r2)

/-- `extractInt`: first submatch of the pattern in `s`, through
`parseCount`; 0 when absent. -/
def extractIntQuoted (key : String) (cs : List Char) : Int :=
  match scanFirst (matchQuotedInt key) cs with
  | some ds => parseCount ds
  | none => 0

def extractIntBare (key : String) (cs : List Char) : Int :=
  match scanFirst (matchBareInt key) cs with
  | some ds => parseCount ds
  | none => 0

/-- `topicsEdgesRe`: `"topics":\{"__typename":"TopicConnection","edges":\[(.*?)\]\}`
— the lazily captured text between the literal opener and the first `]}`. -/
def matchTopicsEdges (cs : List Char) : Option (List Char × List Char) := do
  let r1 ← eatLit "\"topics\":\x7b\"__typename\":\"TopicConnection\",\"edges\":[" cs
  match idxOfChars r1 "]\x7d".data with
  | none => none
  | some j => return (r1.take j, r1.drop (j + 2))

/-- `topicNameRe`: `"name":"([^"]+)"`. -/
def matchName (cs : List Char) : Option (String × List Char) := do
  let r1 ← eatLit "\"name\":\"" cs
  let (nm, r2) ← eatNonQuote1 r1
  let r3 ← eatLit "\"" r2
  return (String.mk nm, r3)

/-- Inner per-post extraction of `parseHydrationLeaderboardProducts`,
processing the chunk between a post match start and the next match start. -/
def hydrationChunkProduct (blob : List Char) (nameTagline : String × String)
    (start chunkEnd : Nat) (seen : List String) : Option Product :=
  let chunk := (blob.drop start).take (chunkEnd - start)
  let name := decodeJSONEscaped nameTagline.1
  let tagline := decodeJSONEscaped nameTagline.2
  match scanFirst matchProductSlug chunk with
  | none => none
  | some pSlug =>
    if pSlug = "" then none
    else
      let slug := decodeJSONEscaped pSlug
      if name = "" || slug = "" then none
      else if seen.contains slug then none
      else
        let dailyRank := extractIntQuoted "dailyRank" chunk
        let weeklyRank := extractIntQuoted "weeklyRank" chunk
        let monthlyRank := extractIntQuoted "monthlyRank" chunk
        let rank0 := dailyRank
        let rank1 := if rank0 = 0 then weeklyRank else rank0
        let rank := if rank1 = 0 then monthlyRank else rank1
        if rank ≤ 0 then none
        else
          let voteCount := extractIntBare "latestScore" chunk
          let commentCount := extractIntBare "commentsCount" chunk
          let categories :=
            match scanFirst matchTopicsEdges chunk with
            | some inner =>
                ((scanAll matchName inner).map
                  (fun nm => trimStr (decodeJSONEscaped nm))).filter (fun c => c ≠ "")
            | none => []
          some (NewProduct name tagline categories voteCount commentCount slug "" rank)

/-- Loop over the post matches of one edges blob. -/
def hydrationBlobLoop (blob : List Char) :
    List (Nat × (String × String) × Nat) → List Product → List String →
    List Product × List String
  | [], products, seen => (products, seen)
  | (start, nt, _) :: rest, products, seen =>
    let chunkEnd := match rest with
                    | (next, _, _) :: _ => next
                    | [] => blob.length
    match hydrationChunkProduct blob nt start chunkEnd seen with
    | none => hydrationBlobLoop blob rest products seen
    | some p => hydrationBlobLoop blob rest (products ++ [p]) (p.slug :: seen)

/-- `parseHydrationLeaderboardProducts` (leaderboard.go). -/
def parseHydrationLeaderboardProducts (raw : String) : List Product :=
  let blocks := hydrationBlocks raw.data
  (blocks.foldl
    (fun acc blob => hydrationBlobLoop blob (scanAllPos matchPost blob) acc.1 acc.2)
    ([], [])).1

/-! ## Markup extraction for the leaderboard (leaderboard.go) -/

/-- `a[href^='/products/']`. -/
def isProductLink (n : Node) : Bool :=
  n.tagIs "a" && attrStarts n "href" "/products/"

/-- Ancestor test for descendant-combinator selectors. -/
def ctxAny (ctx : Ctx) (p : Node → Bool) : Bool :=
  ctx.any (fun x => p x.1)

/-- `parseProductCard` (leaderboard.go).  `none` stands for Go's
`(types.Product{}, false)`. -/
def parseProductCard (s : Option (Node × Ctx)) : Option Product :=
  match s with
  | none => none
  | some card =>
    let nameLink0 := selFirst (findDesc (fun n ctx =>
      isProductLink n && ctxAny ctx (fun a => attrStarts a "data-test" "post-name-")) card)
    let nameLink :=
      if nameLink0.isEmpty then
        selFirst (findDesc (fun n _ => isProductLink n) card)
      else nameLink0
    let name := trimStr (selText nameLink)
    let href := (selAttr nameLink "href").getD ""
    let slug := dropStart href "/products/"
    if name = "" || slug = "" then none
    else
      let tagline := trimStr (selText (selFirst (findDesc
        (fun n _ => n.tagIs "span" && classHasAttr n "text-secondary") card)))
      let categories :=
        ((findDesc (fun n _ => n.tagIs "a" && attrStarts n "href" "/topics/") card).map
          (fun e => trimStr e.1.textContent)).filter (fun c => c ≠ "")
      let voteBtn := selFirst (findDesc
        (fun n _ => n.tagIs "button" && attrEq n "data-test" "vote-button") card)
      let (voteCount, commentCount) :=
        if !voteBtn.isEmpty then
          let voteText := trimStr (selText (selFirst (selFind (fun n _ => n.tagIs "p") voteBtn)))
          let vc := parseCount voteText
          let commentBtn :=
            match voteBtn with
            | [] => []
            | e :: _ => match prevSibling e with
                        | some pe => [pe]
                        | none => []
          let commentText := trimStr (selText (selFirst (selFind (fun n _ => n.tagIs "p") commentBtn)))
          (vc, parseCount commentText)
        else
          let counts :=
            ((findDesc (fun n ctx => n.tagIs "p" && ctxAny ctx (fun a => a.tagIs "button")) card).map
              (fun e => parseCount (trimStr e.1.textContent))).filter (fun n => 0 < n)
          ((counts.getLast?).getD 0,
           if 1 < counts.length then counts.getD (counts.length - 2) 0 else 0)
      let thumb0 := (selAttr (selFirst (findDesc (fun n _ => n.tagIs "img") card)) "src").getD ""
      let thumbnailURL :=
        if thumb0 = "" then
          (selAttr (selFirst (findDesc (fun n _ => n.tagIs "video") card)) "poster").getD ""
        else thumb0
      some (NewProduct name tagline categories voteCount commentCount slug thumbnailURL 0)

/-- Pass 1 of `ParseLeaderboard`: cards matched by `[data-test^='post-item-']`. -/
def lbPass1 : Sel → List Product → List String → List Product × List String
  | [], products, seen => (products, seen)
  | card :: rest, products, seen =>
    match parseProductCard (some card) with
    | none => lbPass1 rest products seen
    | some p =>
      if seen.contains p.slug then lbPass1 rest products seen
      else lbPass1 rest (products ++ [p]) (p.slug :: seen)

/-- Pass 2: post-name links whose card lost its `post-item` marker. -/
def lbPass2 : Sel → List Product → List String → List Product × List String
  | [], products, seen => (products, seen)
  | link :: rest, products, seen =>
    let href := (link.1.attrVal "href").getD ""
    let slug := dropStart href "/products/"
    if slug = "" then lbPass2 rest products seen
    else if seen.contains slug then lbPass2 rest products seen
    else
      let card0 := closest link (fun n => attrStarts n "data-test" "post-item-")
      let card1 :=
        match card0 with
        | some c => some c
        | none => closest link (fun n => n.tagIs "section" || n.tagIs "article" || n.tagIs "li")
      let card :=
        match card1 with
        | some c => some c
        | none => parentOf link
      match parseProductCard card with
      | none => lbPass2 rest products seen
      | some p =>
        if seen.contains p.slug then lbPass2 rest products seen
        else lbPass2 rest (products ++ [p]) (p.slug :: seen)

/-- Pass 3: last-resort product links inside `main` whose container has a
secondary-text span. -/
def lbPass3 : Sel → List Product → List String → List Product × List String
  | [], products, seen => (products, seen)
  | link :: rest, products, seen =>
    let href := (link.1.attrVal "href").getD ""
    let slug := dropStart href "/products/"
    if slug = "" then lbPass3 rest products seen
    else if seen.contains slug then lbPass3 rest products seen
    else
      match closest link (fun n =>
          n.tagIs "section" || n.tagIs "article" || n.tagIs "li" || n.tagIs "div") with
      | none => lbPass3 rest products seen
      | some card =>
        if (findDesc (fun n _ => n.tagIs "span" && classHasAttr n "text-secondary") card).isEmpty then
          lbPass3 rest products seen
        else
          match parseProductCard (some card) with
          | none => lbPass3 rest products seen
          | some p =>
            if seen.contains p.slug then lbPass3 rest products seen
            else lbPass3 rest (products ++ [p]) (p.slug :: seen)

/-- The in-place rank renumbering loops of `ParseLeaderboard`
(`products[i]` rebuilt with rank `i+1`). -/
def renumberFrom (i : Int) : List Product → List Product
  | [] => []
  | p :: ps =>
      NewProduct p.name p.tagline p.categories p.voteCount p.commentCount
        p.slug p.thumbnailURL (i + 1) :: renumberFrom (i + 1) ps

def renumber (l : List Product) : List Product := renumberFrom 0 l

/-- The slug-matched field merge of `ParseLeaderboard` (lines filling only
blank/zero markup fields from a hydration record). -/
def fillFromHydration (existing hp : Product) : Product :=
  let name := if existing.name = "" then hp.name else existing.name
  let tagline := if existing.tagline = "" then hp.tagline else existing.tagline
  let categories := if existing.categories.isEmpty then hp.categories else existing.categories
  let voteCount := if 0 < hp.voteCount then hp.voteCount else existing.voteCount
  let commentCount := if 0 < hp.commentCount then hp.commentCount else existing.commentCount
  let rank := if 0 < hp.rank then hp.rank else existing.rank
  NewProduct name tagline categories voteCount commentCount
    existing.slug existing.thumbnailURL rank

/-- Association-list stand-in for the Go `map[string]int` index. -/
def assocPut (m : List (String × Nat)) (k : String) (v : Nat) : List (String × Nat) :=
  match m with
  | [] => [(k, v)]
  | (k', v') :: rest => if k' = k then (k, v) :: rest else (k', v') :: assocPut rest k v

def assocGet (m : List (String × Nat)) (k : String) : Option Nat :=
  (m.find? (fun e => e.1 = k)).map (·.2)

/-- `indexBySlug` initialisation. -/
def buildIndexBySlug (products : List Product) : List (String × Nat) :=
  (products.enum.foldl
    (fun m e => if e.2.slug ≠ "" then assocPut m e.2.slug e.1 else m) [])

/-- The hydration merge loop of `ParseLeaderboard`. -/
def lbMergeLoop : List Product → List Product → List (String × Nat) → List Product
  | [], products, _ => products
  | hp :: rest, products, index =>
    if hp.slug = "" then lbMergeLoop rest products index
    else
      match assocGet index hp.slug with
      | some idx =>
        match products.get? idx with
        | some existing =>
            lbMergeLoop rest (products.set idx (fillFromHydration existing hp)) index
        | none => lbMergeLoop rest products index
      | none =>
        lbMergeLoop rest (products ++ [hp]) (assocPut index hp.slug products.length)

/-- Go `sort.SliceStable` comparator of `ParseLeaderboard`: rank ascending,
rank 0 sorted as equal-last (the both-zero `i < j` branch reports the
current order, i.e. equality, under `SliceStable`). -/
def rankLt (p q : Product) : Bool :=
  if p.rank = 0 ∧ q.rank = 0 then false
  else if p.rank = 0 then false
  else if q.rank = 0 then true
  else decide (p.rank < q.rank)

/-- Stable insertion of `x` (earlier element) into an already sorted list of
later elements: placed before the first element not strictly below it. -/
def insertRank (x : Product) : List Product → List Product
  | [] => [x]
  | y :: ys => if rankLt y x then y :: insertRank x ys else x :: y :: ys

/-- The unique stable sort by `rankLt`; Go `sort.SliceStable`. -/
def sortByRankStable : List Product → List Product
  | [] => []
  | x :: xs => insertRank x (sortByRankStable xs)

/-- Case-insensitive trimmed name, the dedup key. -/
def nameKey (p : Product) : String := lowerStr (trimStr p.name)

/-- Name-dedup loop of `ParseLeaderboard`: keep the first occurrence. -/
def dedupeByNameAux : List Product → List String → List Product
  | [], _ => []
  | p :: rest, seenName =>
    if seenName.contains (nameKey p) then dedupeByNameAux rest seenName
    else p :: dedupeByNameAux rest (nameKey p :: seenName)

def dedupeByName (l : List Product) : List Product := dedupeByNameAux l []

/-- The merged (pre-sort) record list of `ParseLeaderboard`: markup passes,
positional renumbering, then the hydration merge. -/
def lbMerged (raw : String) (doc : Node) : List Product :=
  let cards := docFind (fun n _ => attrStarts n "data-test" "post-item-") doc
  let (products1, seen1) := lbPass1 cards [] []
  let nameLinks := docFind (fun n ctx =>
    isProductLink n && ctxAny ctx (fun a => attrStarts a "data-test" "post-name-")) doc
  let (products2, seen2) := lbPass2 nameLinks products1 seen1
  let mainLinks := docFind (fun n ctx =>
    isProductLink n && ctxAny ctx (fun a => a.tagIs "main")) doc
  let (products3, _) := lbPass3 mainLinks products2 seen2
  let products := renumber products3
  let hydrationProducts := parseHydrationLeaderboardProducts raw
  lbMergeLoop hydrationProducts products (buildIndexBySlug products)

/-- `ParseLeaderboard` (leaderboard.go).  The reader/tokenizer error paths
cannot fire in the pure embedding (goquery accepts any byte string), so the
function is total; `doc` is the tree parsed from `raw`. -/
def ParseLeaderboard (raw : String) (doc : Node) : List Product :=
  renumber (dedupeByName (sortByRankStable (lbMerged raw doc)))

/-! ## Search parser (search.go) -/

/-- Position-keeping first match: leftmost position where `m` succeeds,
with the suffix after the match (the lazy `.*?LITERAL...` idiom). -/
def scanFirstR {α : Type} (m : List Char → Option (α × List Char)) :
    List Char → Option (α × List Char)
  | [] => none
  | c :: rest =>
    match m (c :: rest) with
    | some r => some r
    | none => scanFirstR m rest

/-- `looksLikeCloudflareChallenge` (search.go). -/
def looksLikeCloudflareChallenge (html : String) : Bool :=
  let s := lowerStr html
  containsStr s "<title>just a moment...</title>" &&
    (containsStr s "cf-challenge" || containsStr s "_cf_chl_opt")

/-- `normalizeProductSlug` (search.go). -/
def normalizeProductSlug (href : String) : String :=
  let s := trimStr href
  if !goStartsWith s "/products/" then ""
  else
    let s := dropStart s "/products/"
    let s := splitN2First s "?"
    let s := trimSlashes s
    if s = "" then "" else splitN2First s "/"

/-- `searchBlockRe`: the lazily captured edges text of each
`productSearch` connection block. -/
def matchSearchBlock (cs : List Char) : Option (List Char × List Char) := do
  let r1 ← eatLit "\"productSearch\":\x7b\"__typename\":\"ProductSearchConnection\",\"edges\":[" cs
  match idxOfChars r1 "],\"pageInfo\":\x7b".data with
  | none => none
  | some j => return (r1.take j, r1.drop (j + ("],\"pageInfo\":\x7b".data.length)))

/-- `searchNodeRe`: one product node inside an edges block. -/
def matchSearchNode (cs : List Char) :
    Option ((String × String × String × Int × String) × List Char) := do
  let r1 ← eatLit "\"node\":\x7b\"__typename\":\"Product\",\"id\":\"" cs
  let (_, r2) ← eatNonQuote1 r1
  let r3 ← eatLit "\",\"name\":\"" r2
  let (nm, r4) ← eatNonQuote1 r3
  let r5 ← eatLit "\",\"tagline\":\"" r4
  let (tg, r6) := eatNonQuote0 r5
  let r7 ← eatLit "\",\"slug\":\"" r6
  let (sl, r8) ← eatNonQuote1 r7
  let r9 ← eatLit "\"" r8
  let (ds, r10) ← scanFirstR (fun s => do
    let a ← eatLit "\"reviewsCount\":" s
    eatDigits1 a) r9
  let (lg, r11) ← scanFirstR (fun s => do
    let a ← eatLit "\"logoUuid\":\"" s
    let (cap, b) := eatNonQuote0 a
    let c ← eatLit "\"" b
    return (cap, c)) r10
  return ((String.mk nm, String.mk tg, String.mk sl, digitsToInt ds, String.mk lg), r11)

/-- Product-building loop of `parseHydrationSearchProducts` over the nodes
of one block. -/
def searchNodesLoop :
    List (String × String × String × Int × String) →
    List Product → List String → List Product × List String
  | [], products, seen => (products, seen)
  | (nm, tg, sl, rc, lg) :: rest, products, seen =>
    let name := trimStr (decodeJSONEscaped nm)
    let tagline := trimStr (decodeJSONEscaped tg)
    let slug := trimStr (decodeJSONEscaped sl)
    let logo := trimStr (decodeJSONEscaped lg)
    if slug = "" || name = "" then searchNodesLoop rest products seen
    else if seen.contains slug then searchNodesLoop rest products seen
    else
      searchNodesLoop rest
        (products ++ [NewProduct name tagline [] 0 rc slug logo (products.length + 1)])
        (slug :: seen)

/-- `parseHydrationSearchProducts` (search.go).  `nil` and the empty list
are both rendered as `[]`. -/
def parseHydrationSearchProducts (raw : String) : List Product :=
  let blocks := scanAll matchSearchBlock raw.data
  (blocks.foldl
    (fun acc b => searchNodesLoop (scanAll matchSearchNode b) acc.1 acc.2)
    ([], [])).1

/-- `extractSearchTagline` (search.go). -/
def extractSearchTaglineLoop (name : String) : Sel → String
  | [] => ""
  | e :: rest =>
    let text := trimStr e.1.textContent
    if text = "" then extractSearchTaglineLoop name rest
    else if lowerStr text = lowerStr (trimStr name) then extractSearchTaglineLoop name rest
    else if goStartsWith text "#" then extractSearchTaglineLoop name rest
    else text

def extractSearchTagline (card : Option (Node × Ctx)) (name : String) : String :=
  match card with
  | none => ""
  | some c =>
    extractSearchTaglineLoop name
      (findDesc (fun n _ => n.tagIs "p" || n.tagIs "span") c)

/-- DOM fallback loop of `ParseSearchResults`. -/
def searchDomLoop : Sel → List Product → List String → List Product × List String
  | [], products, seen => (products, seen)
  | link :: rest, products, seen =>
    let href := (link.1.attrVal "href").getD ""
    let slug := normalizeProductSlug href
    if slug = "" then searchDomLoop rest products seen
    else if seen.contains slug then searchDomLoop rest products seen
    else
      let card :=
        match closest link (fun n =>
            n.tagIs "article" || n.tagIs "section" || n.tagIs "li" || n.tagIs "div") with
        | some c => some c
        | none => parentOf link
      let name0 := trimStr link.1.textContent
      let name :=
        if name0 = "" then
          match card with
          | none => ""
          | some c =>
            trimStr (selText (selFirst (findDesc (fun n _ =>
              n.tagIs "h1" || n.tagIs "h2" || n.tagIs "h3" || n.tagIs "h4" ||
                attrHas n "data-test" "name") c)))
        else name0
      if name = "" then searchDomLoop rest products seen
      else
        let tagline := extractSearchTagline card name
        let categories :=
          match card with
          | none => []
          | some c =>
            ((findDesc (fun n _ => n.tagIs "a" && attrStarts n "href" "/topics/") c).map
              (fun e => trimStr e.1.textContent)).filter (fun cat => cat ≠ "")
        let thumb0 :=
          match card with
          | none => ""
          | some c => (selAttr (selFirst (findDesc (fun n _ => n.tagIs "img") c)) "src").getD ""
        let thumbnailURL :=
          if thumb0 = "" then
            match card with
            | none => ""
            | some c => (selAttr (selFirst (findDesc (fun n _ => n.tagIs "video") c)) "poster").getD ""
          else thumb0
        searchDomLoop rest
          (products ++ [NewProduct name tagline categories 0 0 slug thumbnailURL (products.length + 1)])
          (slug :: seen)

/-- The two error messages of `ParseSearchResults`. -/
def cfBlockedMsg : String :=
  "search blocked by Cloudflare challenge; interactive browser or API token is required"

def noSearchResultsMsg : String :=
  "no parseable search results from producthunt search page"

/-- `ParseSearchResults` (search.go); `doc` is the tree parsed from `raw`. -/
def ParseSearchResults (raw : String) (doc : Node) : Except String (List Product) :=
  if looksLikeCloudflareChallenge raw then .error cfBlockedMsg
  else
    let hydr := parseHydrationSearchProducts raw
    if hydr.length > 0 then .ok hydr
    else
      let links := docFind (fun n ctx =>
        isProductLink n && ctxAny ctx (fun a => a.tagIs "main")) doc
      let (products, _) := searchDomLoop links [] []
      if products.length = 0 then .error noSearchResultsMsg
      else .ok products

/-- `parseSearchPageInfo` (search.go): `(page, hasPrev, hasNext, pagesCount, ok)`. -/
def matchSearchPageInfo (cs : List Char) :
    Option ((Int × Bool × Bool × Int) × List Char) := do
  let r1 ← eatLit "\"productSearch\":\x7b\"__typename\":\"ProductSearchConnection\",\"edges\":[" cs
  let (pg, r2) ← scanFirstR (fun s => do
    let a ← eatLit "],\"pageInfo\":\x7b\"__typename\":\"PageInfo\",\"page\":" s
    eatDigits1 a) r1
  let r3 ← eatLit ",\"hasPreviousPage\":" r2
  let (hp, r4) ←
    match eatLit "true" r3 with
    | some r => some (true, r)
    | none => match eatLit "false" r3 with
              | some r => some (false, r)
              | none => none
  let r5 ← eatLit ",\"hasNextPage\":" r4
  let (hn, r6) ←
    match eatLit "true" r5 with
    | some r => some (true, r)
    | none => match eatLit "false" r5 with
              | some r => some (false, r)
              | none => none
  let r7 ← eatLit "\x7d,\"pagesCount\":" r6
  let (pc, r8) ← eatDigits1 r7
  return ((digitsToInt pg, hp, hn, digitsToInt pc), r8)

def parseSearchPageInfo (raw : String) : Int × Bool × Bool × Int × Bool :=
  match scanFirst matchSearchPageInfo raw.data with
  | none => (0, false, false, 0, false)
  | some (page, hasPrev, hasNext, pagesCount) =>
    let page := if page ≤ 0 then 1 else page
    let pagesCount := if pagesCount ≤ 0 then 1 else pagesCount
    (page, hasPrev, hasNext, pagesCount, true)

/-! ## Category parser (category.go) -/

/-- `categoryReviewRe` / `extractReviewNumber`: `(\d+)\s*reviews?`. -/
def matchReviewNumber (cs : List Char) : Option (List Char × List Char) := do
  let (ds, r1) ← eatDigits1 cs
  let r2 := r1.dropWhile Char.isWhitespace
  let r3 ← eatLit "review" r2
  let r4 := match eatLit "s" r3 with
            | some r => r
            | none => r3
  return (ds, r4)

def extractReviewNumber (text : String) : Int :=
  match scanFirst matchReviewNumber text.data with
  | some ds => digitsToInt ds
  | none => 0

/-- `parseCategoryReviewCount` (category.go): the first positive count among
review links for `slug` in `container`, then in `container.Parent()`. -/
def reviewLinksCount (links : Sel) : Int :=
  links.foldl
    (fun count e =>
      if 0 < count then count else extractReviewNumber (trimStr e.1.textContent))
    0

def parseCategoryReviewCount (container : Node × Ctx) (slug : String) : Int :=
  let reviewHref := "/products/" ++ slug ++ "/reviews"
  let count := reviewLinksCount
    (findDesc (fun n _ => n.tagIs "a" && attrEq n "href" reviewHref) container)
  if count = 0 then
    match parentOf container with
    | some par =>
        reviewLinksCount
          (findDesc (fun n _ => n.tagIs "a" && attrEq n "href" reviewHref) par)
    | none => 0
  else count

/-- `findCategoryThumbnail` (category.go). -/
def findCategoryThumbnail (doc : Node) (name : String) : String :=
  match selFirst (docFind (fun n _ =>
      n.tagIs "img" && attrEq n "data-test" (name ++ "-thumbnail")) doc) with
  | [] => ""
  | (n, _) :: _ => (n.attrVal "src").getD ""

/-- Primary card loop of `parseCategoryProductCards`. -/
def catPrimaryLoop (doc : Node) : Sel → List Product → List String → List Product × List String
  | [], products, seen => (products, seen)
  | link :: rest, products, seen =>
    let href := (link.1.attrVal "href").getD ""
    let slug := normalizeProductSlug href
    if slug = "" then catPrimaryLoop doc rest products seen
    else if seen.contains slug then catPrimaryLoop doc rest products seen
    else
      let name0 := trimStr (selText (selFirst (findDesc (fun n _ =>
        n.tagIs "span" && classHasAttr n "font-semibold") link)))
      let name :=
        if name0 = "" then
          trimStr (selText (selFirst (findDesc (fun n _ => n.tagIs "span") link)))
        else name0
      if name = "" then catPrimaryLoop doc rest products seen
      else
        let tagline := trimStr (selText (selFirst (findDesc (fun n _ =>
          n.tagIs "span" && classHasAttr n "text-secondary") link)))
        let thumbnailURL := findCategoryThumbnail doc name
        let row := closest link (fun n =>
          n.tagIs "div" || n.tagIs "li" || n.tagIs "section" || n.tagIs "article")
        let reviewCount :=
          match row with
          | some r => parseCategoryReviewCount r slug
          | none => 0
        catPrimaryLoop doc rest
          (products ++ [NewProduct name tagline [] 0 reviewCount slug thumbnailURL (products.length + 1)])
          (slug :: seen)

/-- Fallback card loop of `parseCategoryProductCards`. -/
def catFallbackLoop : Sel → List Product → List String → List Product × List String
  | [], products, seen => (products, seen)
  | link :: rest, products, seen =>
    let href := (link.1.attrVal "href").getD ""
    let slug := normalizeProductSlug href
    if slug = "" then catFallbackLoop rest products seen
    else if seen.contains slug then catFallbackLoop rest products seen
    else if containsStr href "/reviews" || containsStr href "?filter=" then
      catFallbackLoop rest products seen
    else
      let name := trimStr link.1.textContent
      if name = "" then catFallbackLoop rest products seen
      else if name.length < 2 then catFallbackLoop rest products seen
      else
        let card := closest link (fun n =>
          n.tagIs "div" || n.tagIs "li" || n.tagIs "section" || n.tagIs "article")
        let tagline :=
          match card with
          | some c => extractSearchTagline (some c) name
          | none => ""
        catFallbackLoop rest
          (products ++ [NewProduct name tagline [] 0 0 slug "" (products.length + 1)])
          (slug :: seen)

/-- `parseCategoryProductCards` (category.go).  Go's byte-length guard
`len(name) < 2` is the UTF-8 byte length; the category names on these pages
are ASCII, where it coincides with `String.length`. -/
def parseCategoryProductCards (doc : Node) : List Product :=
  let primary := docFind (fun n _ =>
    n.tagIs "a" && attrEq n "data-grid-span" "1" && attrStarts n "href" "/products/") doc
  let (products, seen) := catPrimaryLoop doc primary [] []
  if products.length = 0 then
    (catFallbackLoop (docFind (fun n _ => isProductLink n) doc) products seen).1
  else products

/-- Related-categories loop of `parseCategoryRelatedCategories`. -/
def catRelatedLoop (currentSlug : String) :
    Sel → List CategoryLink → List String → List CategoryLink × List String
  | [], cats, seen => (cats, seen)
  | link :: rest, cats, seen =>
    let href := (link.1.attrVal "href").getD ""
    if containsStr href "?page=" || containsStr href "?order=" || containsStr href "?ref=" then
      catRelatedLoop currentSlug rest cats seen
    else
      let slug := trimSlashes (splitN2First (dropStart href "/categories/") "?")
      if slug = "" then catRelatedLoop currentSlug rest cats seen
      else if slug = currentSlug then catRelatedLoop currentSlug rest cats seen
      else if seen.contains slug then catRelatedLoop currentSlug rest cats seen
      else
        let name := trimStr link.1.textContent
        if name = "" then catRelatedLoop currentSlug rest cats seen
        else catRelatedLoop currentSlug rest (cats ++ [NewCategoryLink name slug]) (slug :: seen)

/-- `parseCategoryRelatedCategories` (category.go). -/
def parseCategoryRelatedCategories (doc : Node) : List CategoryLink :=
  let currentSlug :=
    match selAttr (docFind (fun n _ => n.tagIs "link" && attrEq n "rel" "canonical") doc) "href" with
    | none => ""
    | some canonical =>
      match strIndex canonical "/categories/" with
      | none => ""
      | some i =>
        trimSlashes (splitN2First (strDrop canonical (i + "/categories/".length)) "?")
  (catRelatedLoop currentSlug
    (docFind (fun n _ => n.tagIs "a" && attrStarts n "href" "/categories/") doc) [] []).1

/-- `ParseCategoryProducts` (category.go); the tokenizer error path cannot
fire in the pure embedding, so the error component is always `nil`. -/
def ParseCategoryProducts (doc : Node) : List Product × List CategoryLink :=
  (parseCategoryProductCards doc, parseCategoryRelatedCategories doc)

/-! ## Product detail parser (product.go) -/

/-- A Go `encoding/json` `Unmarshal` result (`any`): the payload trees the
JSON-LD pricing walk receives.  Numbers are carried as rationals (Go
`float64`; the price literals on these pages are exactly representable). -/
inductive GoJson where
  | null
  | bool (b : Bool)
  | num (q : ℚ)
  | str (s : String)
  | arr (items : List GoJson)
  | obj (fields : List (String × GoJson))
deriving Inhabited

/-- Go map index `v["key"]` on an unmarshalled object (missing key is the
`nil` interface, modelled as `null`). -/
def GoJson.get (v : GoJson) (key : String) : GoJson :=
  match v with
  | .obj fields => ((fields.find? (fun f => f.1 == key)).map (·.2)).getD .null
  | _ => .null

/-- `parsePriceValue` (product.go): float64 truncates toward zero
(`int(value)`), strings go through trimmed `Atoi`. -/
def parsePriceValue (v : GoJson) : Option Int :=
  match v with
  | .num q => some (q.num.tdiv q.den)
  | .str s => atoi (trimStr s)
  | _ => none

/-- `isProductType` (product.go). -/
def isProductType (v : GoJson) : Bool :=
  match v with
  | .str t => t == "Product"
  | .arr items => items.any (fun it =>
      match it with
      | .str s => s == "Product"
      | _ => false)
  | _ => false

/-- `extractOfferPrice` (product.go). -/
def extractOfferPrice (v : GoJson) : Option Int :=
  match v with
  | .obj fields => parsePriceValue ((GoJson.obj fields).get "price")
  | .arr items =>
      (items.filterMap (fun it =>
        match it with
        | .obj fields => parsePriceValue ((GoJson.obj fields).get "price")
        | _ => none)).head?
  | _ => none

mutual
/-- `collectProductPrices` (product.go): prices of every typed "Product"
node with a parsable nested offer price, in traversal order (only the
minimum is ever used, so Go's randomized map order is immaterial). -/
def collectProductPrices : GoJson → List Int
  | .obj fields =>
      (if isProductType ((GoJson.obj fields).get "@type") then
        match extractOfferPrice ((GoJson.obj fields).get "offers") with
        | some price => [price]
        | none => []
      else []) ++ collectPricesFields fields
  | .arr items => collectPricesList items
  | _ => []

def collectPricesFields : List (String × GoJson) → List Int
  | [] => []
  | f :: rest => collectProductPrices f.2 ++ collectPricesFields rest

def collectPricesList : List GoJson → List Int
  | [] => []
  | it :: rest => collectProductPrices it ++ collectPricesList rest
end

/-- `parsePricingFromJSONLD` (product.go).  `payloads` are the successfully
unmarshalled non-empty `script[type='application/ld+json']` contents of the
document, in document order (`encoding/json` itself is the trusted
deserialisation boundary of the embedding). -/
def parsePricingFromJSONLD (payloads : List GoJson) : Option Int :=
  let prices := (payloads.map collectProductPrices).flatten
  match prices with
  | [] => none
  | p :: rest => some (rest.foldl (fun mp q => if q < mp then q else mp) p)

/-- `formatPrice` (product.go). -/
def formatPrice (price : Int) : String :=
  if price = 0 then "Free" else "$" ++ toString price

/-- `parsePricing` (product.go): JSON-LD offer pricing first, otherwise the
minimum over raw `"price":N` fields mined from the serialized document. -/
def parsePricing (payloads : List GoJson) (rawHtml : String) : String :=
  match parsePricingFromJSONLD payloads with
  | some price => formatPrice price
  | none =>
    let ms := scanAll (matchBareInt "price") rawHtml.data
    if ms.isEmpty then ""
    else
      let minPrice := ms.foldl
        (fun mp ds =>
          let price := parseCount ds
          if mp = -1 ∨ price < mp then price else mp)
        (-1)
      if minPrice < 0 then "" else formatPrice minPrice

/-- `parseSlugFromDoc` (product.go). -/
def parseSlugFromDoc (doc : Node) : String :=
  match selAttr (docFind (fun n _ => n.tagIs "link" && attrEq n "rel" "canonical") doc) "href" with
  | none => ""
  | some href =>
    match strIndex href "/products/" with
    | none => ""
    | some i => splitN2First (strDrop href (i + "/products/".length)) "/"

/-- Go `strconv.ParseFloat` on the decimal forms these pages carry
(optional sign, digits, optional fraction; exponents do not occur). -/
def goParseFloat (s : String) : Option ℚ :=
  let cs := s.data
  let (sign, cs) :=
    match cs with
    | '-' :: rest => ((-1 : ℚ), rest)
    | '+' :: rest => ((1 : ℚ), rest)
    | _ => ((1 : ℚ), cs)
  let intPart := cs.takeWhile Char.isDigit
  let cs2 := cs.drop intPart.length
  match cs2 with
  | [] => if intPart.isEmpty then none else some (sign * (digitsToInt intPart : ℚ))
  | '.' :: frac =>
    let fracPart := frac.takeWhile Char.isDigit
    if frac.drop fracPart.length ≠ [] then none
    else if intPart.isEmpty && fracPart.isEmpty then none
    else
      some (sign * ((digitsToInt intPart : ℚ) +
        (digitsToInt fracPart : ℚ) / ((10 : ℚ) ^ fracPart.length)))
  | _ => none

/-- `parseRating` (product.go). -/
def parseRating (header : Sel) : ℚ :=
  (selFind (fun n ctx =>
      n.tagIs "span" && classHasAttr n "text-14" &&
        ctxAny ctx (fun a => a.tagIs "a" && attrHas a "href" "/reviews")) header).foldl
    (fun rating e =>
      if 0 < rating then rating
      else
        match goParseFloat (trimStr e.1.textContent) with
        | some r => r
        | none => rating)
    0

/-- `parseReviewCount` (product.go): the last reviews link with an
`<N> review(s)` text wins (the Go loop overwrites without short-circuit). -/
def parseReviewCount (header : Sel) : Int :=
  (selFind (fun n _ => n.tagIs "a" && attrHas n "href" "/reviews") header).foldl
    (fun count e =>
      match scanFirst matchReviewNumber (trimStr e.1.textContent).data with
      | some ds => digitsToInt ds
      | none => count)
    0

/-- Round half away from zero (Go `math.Round`). -/
def ratRound (q : ℚ) : Int :=
  if 0 ≤ q then (q + 1/2).floor else -((-q + 1/2).floor)

/-- `parseCountWithSuffix` (product.go): leftmost `([\d.]+)\s*([KkMm]?)`
match; K = ×1000, M = ×1000000; rounded. -/
def matchNumSuffix (cs : List Char) : Option ((List Char × Option Char) × List Char) :=
  let isNumCh : Char → Bool := fun c => c.isDigit || c = '.'
  let cap := cs.takeWhile isNumCh
  if cap.isEmpty then none
  else
    let r1 := (cs.drop cap.length).dropWhile Char.isWhitespace
    match r1 with
    | c :: rest =>
      if c = 'K' || c = 'k' || c = 'M' || c = 'm' then some ((cap, some c), rest)
      else some ((cap, none), r1)
    | [] => some ((cap, none), [])

def parseCountWithSuffix (text : String) : Int :=
  match scanFirst matchNumSuffix text.data with
  | none => 0
  | some (cap, suffix) =>
    match goParseFloat (String.mk cap) with
    | none => 0
    | some val =>
      let val :=
        match suffix with
        | some c => if c = 'K' || c = 'k' then val * 1000
                    else if c = 'M' || c = 'm' then val * 1000000
                    else val
        | none => val
      ratRound val

/-- `parseFollowerCount` (product.go): last `followers` paragraph wins. -/
def parseFollowerCount (header : Sel) : Int :=
  (selFind (fun n _ => n.tagIs "p" && classHasAttr n "text-14") header).foldl
    (fun count e =>
      let text := trimStr e.1.textContent
      if containsStr text "followers" then parseCountWithSuffix text else count)
    0

/-- `parseThumbnail` (product.go). -/
def parseThumbnail (header : Sel) (name : String) : String :=
  (selFind (fun n _ => n.tagIs "video" && (n.attrVal "aria-label").isSome) header).foldl
    (fun url e =>
      if url ≠ "" then url
      else if (e.1.attrVal "aria-label").getD "" = name then (e.1.attrVal "poster").getD ""
      else url)
    ""

/-- `parseMakerComment` (product.go). -/
def makerCommentLoop : Sel → String
  | [] => ""
  | e :: rest =>
    if trimStr e.1.textContent ≠ "Maker Comment" then makerCommentLoop rest
    else
      let prose :=
        match nextSibling e with
        | none => []
        | some threadDiv => findDesc (fun n _ => classHasAttr n "prose") threadDiv
      match prose with
      | [] => makerCommentLoop rest
      | pr :: _ =>
        let parts := ((findDesc (fun n _ => n.tagIs "p") pr).map
          (fun p => trimStr p.1.textContent)).filter (fun t => t ≠ "")
        let comment := joinWith "\n\n" parts
        if comment ≠ "" then comment else makerCommentLoop rest

def parseMakerComment (doc : Node) : String :=
  makerCommentLoop (docFind (fun n _ => n.tagIs "h2") doc)

/-- `parseDetailCategories` (product.go). -/
def detailCategoriesLoop : Sel → List String → List String → List String
  | [], cats, _ => cats
  | e :: rest, cats, seen =>
    let cat := trimStr e.1.textContent
    if cat = "" then detailCategoriesLoop rest cats seen
    else if seen.contains cat then detailCategoriesLoop rest cats seen
    else detailCategoriesLoop rest (cats ++ [cat]) (cat :: seen)

def parseDetailCategories (doc : Node) : List String :=
  detailCategoriesLoop
    (docFind (fun n _ => n.tagIs "a" && attrStarts n "href" "/topics/") doc) [] []

/-- `parseSocialLinks` (product.go). -/
def socialLinksLoop : Sel → List String → List String → List String
  | [], links, _ => links
  | e :: rest, links, seen =>
    match e.1.attrVal "href" with
    | none => socialLinksLoop rest links seen
    | some href =>
      let h := trimStr href
      if h = "" then socialLinksLoop rest links seen
      else if containsStr h "producthunt.com" then socialLinksLoop rest links seen
      else if containsStr h "linkedin.com" || containsStr h "x.com" || containsStr h "twitter.com" then
        if seen.contains h then socialLinksLoop rest links seen
        else socialLinksLoop rest (links ++ [h]) (h :: seen)
      else socialLinksLoop rest links seen

def parseSocialLinks (doc : Node) : List String :=
  socialLinksLoop (docFind (fun n _ => n.tagIs "a" && (n.attrVal "href").isSome) doc) [] []

/-- RFC 3339 timestamp to epoch seconds (Go `time.Parse(time.RFC3339, ·)`;
fractional seconds, which never decide an earliest-timestamp comparison on
these pages, are not carried). -/
def parseRFC3339 (s : String) : Option Int :=
  let cs := s.data
  let d4 := cs.takeWhile Char.isDigit
  if d4.length ≠ 4 then none
  else
    match cs.drop 4 with
    | '-' :: rest1 =>
      let mo := rest1.take 2
      if !(mo.all Char.isDigit) || mo.length ≠ 2 then none
      else
        match rest1.drop 2 with
        | '-' :: rest2 =>
          let dy := rest2.take 2
          if !(dy.all Char.isDigit) || dy.length ≠ 2 then none
          else
            match rest2.drop 2 with
            | 'T' :: rest3 =>
              let hh := rest3.take 2
              let rest4 := rest3.drop 2
              match rest4 with
              | ':' :: rest5 =>
                let mi := rest5.take 2
                let rest6 := rest5.drop 2
                match rest6 with
                | ':' :: rest7 =>
                  let ss := rest7.take 2
                  let rest8 := rest7.drop 2
                  if !((hh ++ mi ++ ss).all Char.isDigit) ||
                      hh.length ≠ 2 || mi.length ≠ 2 || ss.length ≠ 2 then none
                  else
                    let rest9 :=
                      match rest8 with
                      | '.' :: fr => (fr.dropWhile Char.isDigit)
                      | r => r
                    let offsetSecs : Option Int :=
                      match rest9 with
                      | ['Z'] => some 0
                      | sgn :: o1 :: o2 :: ':' :: o3 :: o4 :: [] =>
                        if (sgn = '+' || sgn = '-') && [o1,o2,o3,o4].all Char.isDigit then
                          let v := digitsToInt [o1,o2] * 3600 + digitsToInt [o3,o4] * 60
                          some (if sgn = '-' then -v else v)
                        else none
                      | _ => none
                    match offsetSecs with
                    | none => none
                    | some off =>
                      let y := digitsToInt d4
                      let mon := digitsToInt mo
                      let day := digitsToInt dy
                      if mon < 1 || 12 < mon || day < 1 || 31 < day ||
                          23 < digitsToInt hh || 59 < digitsToInt mi || 59 < digitsToInt ss then none
                      else
                        some (daysFromCivil y mon day * 86400 +
                          digitsToInt hh * 3600 + digitsToInt mi * 60 + digitsToInt ss - off)
                | _ => none
              | _ => none
            | _ => none
        | _ => none
    | _ => none

/-- `"featuredAt":"([^"]+)"`. -/
def matchFeaturedAt (cs : List Char) : Option (String × List Char) := do
  let r1 ← eatLit "\"featuredAt\":\"" cs
  let (ts, r2) ← eatNonQuote1 r1
  let r3 ← eatLit "\"" r2
  return (String.mk ts, r3)

/-- `parseLaunchDate` (product.go): of all parseable `featuredAt`
timestamps in the serialized document, the earliest; `none` is Go's zero
`time.Time`. -/
def parseLaunchDate (rawHtml : String) : Option Int :=
  (scanAll matchFeaturedAt rawHtml.data).foldl
    (fun launch ts =>
      match parseRFC3339 ts with
      | none => launch
      | some t =>
        match launch with
        | none => some t
        | some cur => if t < cur then some t else some cur)
    none

/-- `parseMakerInfo` (product.go). -/
def parseMakerInfo (doc : Node) : String × String :=
  let name := (selAttr (docFind (fun n _ =>
    n.tagIs "meta" && attrEq n "name" "author") doc) "content").getD ""
  let profileURL := (selAttr (docFind (fun n _ =>
    n.tagIs "link" && attrEq n "rel" "author") doc) "href").getD ""
  (trimStr name, trimStr profileURL)

/-- `"__typename":"ReviewAiProConTag","id":"(\d+)","name":"([^"]+)","type":"(\w+)","count":(\d+)`. -/
def matchProConTag (cs : List Char) : Option ((String × String × Int) × List Char) := do
  let r1 ← eatLit "\"__typename\":\"ReviewAiProConTag\",\"id\":\"" cs
  let (_, r2) ← eatDigits1 r1
  let r3 ← eatLit "\",\"name\":\"" r2
  let (nm, r4) ← eatNonQuote1 r3
  let r5 ← eatLit "\",\"type\":\"" r4
  let (ty, r6) ← eatWord1 r5
  let r7 ← eatLit "\",\"count\":" r6
  let (ds, r8) ← eatDigits1 r7
  return ((String.mk nm, String.mk ty, digitsToInt ds), r8)

/-- Association map on (name, type) keys standing for Go's
`map[key]int`. -/
def kassocPut (m : List ((String × String) × Int)) (k : String × String) (v : Int) :
    List ((String × String) × Int) :=
  match m with
  | [] => [(k, v)]
  | (k', v') :: rest => if k' = k then (k, v) :: rest else (k', v') :: kassocPut rest k v

def kassocGet (m : List ((String × String) × Int)) (k : String × String) : Option Int :=
  (m.find? (fun e => e.1 = k)).map (·.2)

/-- The max-count dedup loop of `parseProConTags`. -/
def dedupeProConTagsLoop :
    List (String × String × Int) → List ((String × String) × Int) →
    List (String × String) → List ProConTag
  | [], maxCounts, order =>
      order.map (fun k => NewProConTag k.1 k.2 ((kassocGet maxCounts k).getD 0))
  | (name, tagType, count) :: rest, maxCounts, order =>
    let k := (name, tagType)
    match kassocGet maxCounts k with
    | some prev =>
      if prev < count then dedupeProConTagsLoop rest (kassocPut maxCounts k count) order
      else dedupeProConTagsLoop rest maxCounts order
    | none => dedupeProConTagsLoop rest (kassocPut maxCounts k count) (order ++ [k])

/-- The matches mined by `parseProConTags` from the serialized document. -/
def proConMatches (rawHtml : String) : List (String × String × Int) :=
  scanAll matchProConTag rawHtml.data

/-- `parseProConTags` (product.go). -/
def parseProConTags (rawHtml : String) : List ProConTag :=
  dedupeProConTagsLoop (proConMatches rawHtml) [] []

/-- `ParseProductDetail` (product.go).  `doc` is the tree parsed from the
response; `rawHtml` stands for `doc.Html()` (goquery's reserialization of
that tree) and `ldPayloads` for the unmarshalled
`script[type='application/ld+json']` contents, in document order. -/
def ParseProductDetail (doc : Node) (rawHtml : String) (ldPayloads : List GoJson) :
    ProductDetail :=
  let header := docFind (fun n _ => attrEq n "data-test" "header") doc
  let name := trimStr (selText (selFirst (selFind (fun n _ => n.tagIs "h1") header)))
  let tagline := trimStr (selText (selFirst (selFind (fun n _ =>
    n.tagIs "h2" && classHasAttr n "text-18") header)))
  let slug := parseSlugFromDoc doc
  let rating := parseRating header
  let reviewCount := parseReviewCount header
  let followerCount := parseFollowerCount header
  let websiteURL := (selAttr (docFind (fun n _ =>
    n.tagIs "a" && attrEq n "data-test" "visit-website-button") doc) "href").getD ""
  let categories := parseDetailCategories doc
  let socialLinks := parseSocialLinks doc
  let description := trimStr (selText (selFirst (selFind (fun n _ =>
    n.tagIs "div" && classHasAttr n "relative" && classHasAttr n "text-16" &&
      classHasAttr n "font-normal" && classHasAttr n "text-gray-700") header)))
  let thumbnailURL := parseThumbnail header name
  let makerComment := parseMakerComment doc
  let launchDate := parseLaunchDate rawHtml
  let (makerName, makerProfileURL) := parseMakerInfo doc
  let proConTags := parseProConTags rawHtml
  let pricingInfo := parsePricing ldPayloads rawHtml
  let product := NewProduct name tagline [] 0 0 slug thumbnailURL 0
  NewProductDetail product description rating reviewCount followerCount
    makerComment websiteURL categories socialLinks launchDate makerName
    makerProfileURL proConTags pricingInfo

/-! ## Orchestrator: the Scraper source (scraper.go) -/

def baseURL : String := "https://www.producthunt.com"

def searchPageSize : Int := 10

def maxSearchPages : Nat := 10

/-- Go `url.QueryEscape`: unreserved bytes stay, space becomes `+`, the
rest percent-encodes as uppercase hex over the UTF-8 bytes. -/
def queryEscape (s : String) : String :=
  let hex : Nat → Char := fun n =>
    if n < 10 then Char.ofNat (48 + n) else Char.ofNat (55 + n)
  String.mk ((s.toUTF8.toList.map (fun b =>
    let n := b.toNat
    if (65 ≤ n && n ≤ 90) || (97 ≤ n && n ≤ 122) || (48 ≤ n && n ≤ 57) ||
        n = 45 || n = 95 || n = 46 || n = 126 then [Char.ofNat n]
    else if n = 32 then ['+']
    else ['%', hex (n / 16), hex (n % 16)])).flatten)

/-- A fetched response as the parsers consume it: the raw text, the DOM
tree the tokenizer produces from it, and (for detail pages) the
unmarshalled JSON-LD payloads.  The HTML tokenizer and `encoding/json`
are the trusted boundary of the embedding. -/
structure Html where
  raw : String
  doc : Node
  ld : List GoJson

/-- The transport (`http.Client.Do` plus the non-2xx status check of each
operation): a deterministic response per URL, a failed fetch or a non-2xx
status being an error value. -/
def Transport : Type := String → Except String Html

/-- The `any`-typed values of the Scraper cache, with the type assertions
the Go code performs on read. -/
inductive CacheVal where
  | products (l : List Product)
  | detail (d : ProductDetail)
  | searchPage (products : List Product) (page : Int) (hasPrev hasNext : Bool) (pagesCount : Int)

/-- The mutex-guarded `map[string]cachedResult` (timestamps are never
read, so they are not carried). -/
def Cache : Type := List (String × CacheVal)

def cacheGet (c : Cache) (url : String) : Option CacheVal :=
  (c.find? (fun e => e.1 = url)).map (·.2)

def cachePut (c : Cache) (url : String) (v : CacheVal) : Cache :=
  match c with
  | [] => [(url, v)]
  | (k, v') :: rest => if k = url then (url, v) :: rest else (k, v') :: cachePut rest url v

/-- Outcome of one Scraper operation: the returned value or error, the
cache afterwards, and how many transport fetches were issued. -/
structure OpOut (α : Type) where
  res : Except String α
  cache : Cache
  fetches : Nat

/-- `Scraper.GetLeaderboard` (scraper.go): URL from the period, cache
lookup (a hit of the wrong dynamic type falls through to a fetch, as the
failed type assertion does), fetch, parse, store. -/
def GetLeaderboard (tr : Transport) (cache : Cache) (period : Period) (date : Date) :
    OpOut (List Product) :=
  let url := baseURL ++ period.URLPath date
  match cacheGet cache url with
  | some (.products l) => ⟨.ok l, cache, 0⟩
  | _ =>
    match tr url with
    | .error e => ⟨.error e, cache, 1⟩
    | .ok html =>
      let products := ParseLeaderboard html.raw html.doc
      ⟨.ok products, cachePut cache url (.products products), 1⟩

/-- `Scraper.GetProductDetail` (scraper.go). -/
def GetProductDetail (tr : Transport) (cache : Cache) (slug : String) :
    OpOut ProductDetail :=
  let url := baseURL ++ "/products/" ++ slug
  match cacheGet cache url with
  | some (.detail d) => ⟨.ok d, cache, 0⟩
  | _ =>
    match tr url with
    | .error e => ⟨.error e, cache, 1⟩
    | .ok html =>
      let detail := ParseProductDetail html.doc html.raw html.ld
      ⟨.ok detail, cachePut cache url (.detail detail), 1⟩

/-- `Scraper.SearchProductsPage` (scraper.go): result is
`(products, currentPage, hasPrev, hasNext, pagesCount)`. -/
def SearchProductsPage (tr : Transport) (cache : Cache) (query : String) (page : Int) :
    OpOut (List Product × Int × Bool × Bool × Int) :=
  let page := if page < 1 then 1 else page
  let searchURL := baseURL ++ "/search?q=" ++ queryEscape query ++ "&page=" ++ toString page
  match cacheGet cache searchURL with
  | some (.searchPage ps pg hp hn pc) => ⟨.ok (ps, pg, hp, hn, pc), cache, 0⟩
  | some (.products ps) =>
      ⟨.ok (ps, page, decide (1 < page), decide (searchPageSize ≤ ps.length), page), cache, 0⟩
  | _ =>
    match tr searchURL with
    | .error e => ⟨.error e, cache, 1⟩
    | .ok html =>
      match ParseSearchResults html.raw html.doc with
      | .error e => ⟨.error e, cache, 1⟩
      | .ok products =>
        let (cp, hp, hn, pc, okInfo) := parseSearchPageInfo html.raw
        let currentPage := if okInfo then cp else page
        let hasPrev := if okInfo then hp else decide (1 < page)
        let hasNext := if okInfo then hn else decide (searchPageSize ≤ products.length)
        let pagesCount := if okInfo then pc else 0
        ⟨.ok (products, currentPage, hasPrev, hasNext, pagesCount),
          cachePut cache searchURL (.searchPage products currentPage hasPrev hasNext pagesCount), 1⟩

/-- Per-page slug-dedup accumulation of `SearchProducts`. -/
def searchAddLoop : List Product → List Product → List String → Nat →
    List Product × List String × Nat
  | [], all, seen, added => (all, seen, added)
  | p :: rest, all, seen, added =>
    if p.slug = "" then searchAddLoop rest all seen added
    else if seen.contains p.slug then searchAddLoop rest all seen added
    else
      searchAddLoop rest
        (all ++ [NewProduct p.name p.tagline p.categories p.voteCount p.commentCount
          p.slug p.thumbnailURL (all.length + 1)])
        (p.slug :: seen) (added + 1)

/-- The sequential page walk of `SearchProducts` (`for page := 1; page <=
maxSearchPages; page++`), `budget` counting the remaining iterations. -/
def searchAggLoop (tr : Transport) (q : String) :
    Nat → Int → Cache → List Product → List String → Nat → OpOut (List Product)
  | 0, _, cache, all, _, fetches => ⟨.ok all, cache, fetches⟩
  | budget + 1, page, cache, all, seen, fetches =>
    let r := SearchProductsPage tr cache q page
    match r.res with
    | .error e =>
      if page = 1 then ⟨.error e, r.cache, fetches + r.fetches⟩
      else ⟨.ok all, r.cache, fetches + r.fetches⟩
    | .ok (products, _, _, hasNext, _) =>
      if products.length = 0 then ⟨.ok all, r.cache, fetches + r.fetches⟩
      else
        let (all2, seen2, added) := searchAddLoop products all seen 0
        if added = 0 || products.length < searchPageSize.toNat || !hasNext then
          ⟨.ok all2, r.cache, fetches + r.fetches⟩
        else searchAggLoop tr q budget (page + 1) r.cache all2 seen2 (fetches + r.fetches)

/-- `Scraper.SearchProducts` (scraper.go): the aggregate search walk; an
empty or whitespace-only query returns `nil, nil` at once. -/
def SearchProducts (tr : Transport) (cache : Cache) (query : String) :
    OpOut (List Product) :=
  let q := trimStr query
  if q = "" then ⟨.ok [], cache, 0⟩
  else searchAggLoop tr q maxSearchPages 1 cache [] [] 0

/-- `Scraper.ClearCache` (scraper.go). -/
def ClearCache (_ : Cache) : Cache := []

/-! ## Tool-server error mapping (mcpsrv handler) -/

/-- The search tool handler's user-facing error mapping (mcpsrv/handler.go):
any error whose text contains "cloudflare" is reported as an explicitly
non-retryable terminal failure. -/
def searchHandlerErrorMessage (err : String) : String :=
  if containsStr (lowerStr err) "cloudflare" then
    "search blocked by Cloudflare challenge; retryable=false"
  else "search failed"

/-! ## Spec-side characterizations used by the theorems -/

/-- First-seen-order deduplication (the spec's "first-seen order, keep the
first occurrence"), written against what has been seen so far. -/
def firstOccAux {α : Type} [DecidableEq α] : List α → List α → List α
  | [], _ => []
  | x :: rest, seen =>
    if x ∈ seen then firstOccAux rest seen else x :: firstOccAux rest (x :: seen)

def firstOccurrences {α : Type} [DecidableEq α] (l : List α) : List α :=
  firstOccAux l []

/-- Key of a mined pro/con match. -/
def proConKeyOf (m : String × String × Int) : String × String := (m.1, m.2.1)

/-- Key of a built tag. -/
def tagKeyOf (t : ProConTag) : String × String := (t.name, t.tagType)

/-- Counts carried by the matches of one (name, type) key. -/
def proConCountsOf (ms : List (String × String × Int)) (k : String × String) : List Int :=
  (ms.filter (fun m => proConKeyOf m = k)).map (fun m => m.2.2)

/-- Maximum of a count list (0 for none). -/
def maxOfCounts : List Int → Int
  | [] => 0
  | c :: cs => cs.foldl max c

/-- The count the dedup loop ends up storing for key `k`: the running
maximum in `m` extended by the incoming counts of `k`. -/
def mergedCount (m : List ((String × String) × Int))
    (ms : List (String × String × Int)) (k : String × String) : Int :=
  match kassocGet m k with
  | some c => (proConCountsOf ms k).foldl max c
  | none => maxOfCounts (proConCountsOf ms k)

/-- All structured offer prices of the JSON-LD payloads. -/
def allOfferPrices (payloads : List GoJson) : List Int :=
  (payloads.map collectProductPrices).flatten

/-- All raw `"price":N` values mined from the serialized document. -/
def rawPriceValues (rawHtml : String) : List Int :=
  (scanAll (matchBareInt "price") rawHtml.data).map parseCount

/-- "No recognizable leaderboard entities": no product-link `href`, no
`post-item` marker, and no hydration `homefeedItems` marker. -/
def NoLbEntities (raw : String) (doc : Node) : Prop :=
  (∀ n ∈ doc.allElems, attrStarts n "href" "/products/" = false) ∧
  (∀ n ∈ doc.allElems, attrStarts n "data-test" "post-item-" = false) ∧
  idxOfChars raw.data homefeedMarker.data = none

/-- "No recognizable category entities": no product links and no category
links. -/
def NoCatEntities (doc : Node) : Prop :=
  (∀ n ∈ doc.allElems, attrStarts n "href" "/products/" = false) ∧
  (∀ n ∈ doc.allElems, attrStarts n "href" "/categories/" = false)

/-- "No recognizable product-detail entities": none of the markers any of
the detail field extractors recognize. -/
def NoDetailEntities (doc : Node) (rawHtml : String) (payloads : List GoJson) : Prop :=
  (∀ n ∈ doc.allElems, attrEq n "data-test" "header" = false) ∧
  (∀ n ∈ doc.allElems, (n.tagIs "link" && attrEq n "rel" "canonical") = false) ∧
  (∀ n ∈ doc.allElems, (n.tagIs "a" && attrEq n "data-test" "visit-website-button") = false) ∧
  (∀ n ∈ doc.allElems, (n.tagIs "a" && attrStarts n "href" "/topics/") = false) ∧
  (∀ n ∈ doc.allElems,
    (match n.attrVal "href" with
     | some h => containsStr (trimStr h) "linkedin.com" || containsStr (trimStr h) "x.com" ||
         containsStr (trimStr h) "twitter.com"
     | none => false) = false) ∧
  (∀ n ∈ doc.allElems, n.tagIs "h2" = true → trimStr n.textContent ≠ "Maker Comment") ∧
  (∀ n ∈ doc.allElems, (n.tagIs "meta" && attrEq n "name" "author") = false) ∧
  (∀ n ∈ doc.allElems, (n.tagIs "link" && attrEq n "rel" "author") = false) ∧
  idxOfChars rawHtml.data "\"featuredAt\":\"".data = none ∧
  idxOfChars rawHtml.data "\"__typename\":\"ReviewAiProConTag\",\"id\":\"".data = none ∧
  idxOfChars rawHtml.data "\"price\":".data = none ∧
  payloads = []

/-- "No recognizable search entities": not a challenge page, no hydration
`productSearch` marker, no product links. -/
def NoSearchEntities (raw : String) (doc : Node) : Prop :=
  looksLikeCloudflareChallenge raw = false ∧
  idxOfChars raw.data "\"productSearch\":\x7b\"__typename\":\"ProductSearchConnection\",\"edges\":[".data = none ∧
  (∀ n ∈ doc.allElems, attrStarts n "href" "/products/" = false)

/-- The all-zero `ProductDetail`. -/
def blankDetail : ProductDetail :=
  NewProductDetail (NewProduct "" "" [] 0 0 "" "" 0) "" 0 0 0 "" "" [] [] none "" "" [] ""

/-! ## Concrete fixtures used by witnesses and counterexamples -/

/-- A document with an empty body and no recognizable entities. -/
def emptyFixtureDoc : Node :=
  .elem "html" [] [.elem "head" [] [.elem "title" [] [.text "Test"]],
    .elem "body" [] [.elem "div" [] []]]

/-- The known bot-challenge interstitial: title exactly "Just a moment..."
plus the challenge-script marker. -/
def cfChallengeRaw : String :=
  "<html><head><title>Just a moment...</title></head><body><script>window._cf_chl_opt=1;</script></body></html>"

/-- The DOM tree of `cfChallengeRaw`. -/
def cfChallengeDoc : Node :=
  .elem "html" []
    [.elem "head" [] [.elem "title" [] [.text "Just a moment..."]],
     .elem "body" [] [.elem "script" [] [.text "window._cf_chl_opt=1;"]]]

/-- One leaderboard card: a `post-item` section holding a product link. -/
def oneCardDoc : Node :=
  .elem "html" []
    [.elem "body" []
      [.elem "main" []
        [.elem "section" [("data-test", "post-item-1")]
          [.elem "a" [("href", "/products/demo-product")] [.text "Demo Product"]]]]]

/-- A hydration payload holding two records with the same product name
under different slugs (ranks 1 and 2). -/
def dupNameRaw : String :=
  homefeedMarker ++
  "\x7b\"__typename\":\"Post\",\"id\":\"p1\",\"name\":\"Same\",\"slug\":\"post-1\",\"tagline\":\"T1\",\"product\":\x7b\"__typename\":\"Product\",\"id\":\"x1\",\"slug\":\"slug-one\"\x7d,\"dailyRank\":\"1\",\"latestScore\":10,\"commentsCount\":2\x7d," ++
  "\x7b\"__typename\":\"Post\",\"id\":\"p2\",\"name\":\"Same\",\"slug\":\"post-2\",\"tagline\":\"T2\",\"product\":\x7b\"__typename\":\"Product\",\"id\":\"x2\",\"slug\":\"slug-two\"\x7d,\"dailyRank\":\"2\",\"latestScore\":5,\"commentsCount\":1\x7d" ++
  pageInfoEndMarker ++ "\x7d\x7d"

/-- A pro/con fixture where one (name, type) pair occurs with counts 2 and
9, and another pair once with count 1. -/
def proConFixtureRaw : String :=
  "\"__typename\":\"ReviewAiProConTag\",\"id\":\"1\",\"name\":\"smart replies\",\"type\":\"Positive\",\"count\":2," ++
  "\"__typename\":\"ReviewAiProConTag\",\"id\":\"2\",\"name\":\"smart replies\",\"type\":\"Positive\",\"count\":9," ++
  "\"__typename\":\"ReviewAiProConTag\",\"id\":\"3\",\"name\":\"mobile\",\"type\":\"Negative\",\"count\":1"

/-- A JSON-LD payload with a typed Product node whose offer price is 49. -/
def offer49Payload : GoJson :=
  .obj [("@context", .str "https://schema.org"), ("@type", .str "Product"),
    ("name", .str "Demo"),
    ("offers", .obj [("@type", .str "Offer"), ("price", .num 49),
      ("priceCurrency", .str "USD")])]

/-- Raw document text carrying a `"price":0` field elsewhere. -/
def price0Raw : String := "\"price\":0,\"someOtherNode\":\x7b\"price\":0\x7d"

/-! ## Theorems -/

/-- C8: `Period.URLPath` is a deterministic function of the calendar date:
Daily maps to `/leaderboard/daily/{year}/{month}/{day}` with month and day
without leading zeros, Weekly to `/leaderboard/weekly/{year}/{isoWeek}`,
Monthly to `/leaderboard/monthly/{year}/{month}`; for 2025-02-18 the three
paths are `/leaderboard/daily/2025/2/18`, `/leaderboard/weekly/2025/8` and
`/leaderboard/monthly/2025/2`. -/
theorem C8_urlPath_shape :
    (∀ d : Date, Period.URLPath .Daily d =
      "/leaderboard/daily/" ++ toString d.year ++ "/" ++ toString d.month ++ "/" ++ toString d.day) ∧
    (∀ d : Date, Period.URLPath .Weekly d =
      "/leaderboard/weekly/" ++ toString d.year ++ "/" ++ toString (isoWeek d).2) ∧
    (∀ d : Date, Period.URLPath .Monthly d =
      "/leaderboard/monthly/" ++ toString d.year ++ "/" ++ toString d.month) ∧
    Period.URLPath .Daily ⟨2025, 2, 18⟩ = "/leaderboard/daily/2025/2/18" ∧
    Period.URLPath .Weekly ⟨2025, 2, 18⟩ = "/leaderboard/weekly/2025/8" ∧
    Period.URLPath .Monthly ⟨2025, 2, 18⟩ = "/leaderboard/monthly/2025/2" := by
  refine ⟨fun d => rfl, fun d => rfl, fun d => rfl, by decide, by decide, by decide⟩

/-- C10: `SearchProducts` with an empty or whitespace-only query returns an
empty product list and a nil error without issuing any page fetch (and
without touching the cache). -/
theorem C10_empty_query_no_fetch (tr : Transport) (cache : Cache) (query : String)
    (h : trimStr query = "") :
    SearchProducts tr cache query = ⟨.ok [], cache, 0⟩ := by
  unfold SearchProducts
  rw [h]
  simp

/-- Witness for C10 at the whitespace-only query `"   "`. -/
theorem C10_empty_query_no_fetch_witness :
    trimStr "   " = "" ∧
      SearchProducts (fun _ => .error "network down") [] "   " = ⟨.ok [], [], 0⟩ :=
  ⟨by decide, C10_empty_query_no_fetch (fun _ => .error "network down") [] "   " (by decide)⟩

/-- C5: the slug-matched leaderboard merge fills only blank/zero markup
fields: name, tagline and categories come from hydration only when the
markup value is empty; vote and comment counts only when the hydration
value is positive; rank only when the hydration rank is positive; slug and
thumbnail always stay with markup; and the merge loop applies exactly this
fill on a slug match. -/
theorem C5_merge_fills_only_blanks (e hp : Product) :
    (fillFromHydration e hp).slug = e.slug ∧
    (fillFromHydration e hp).thumbnailURL = e.thumbnailURL ∧
    (e.name ≠ "" → (fillFromHydration e hp).name = e.name) ∧
    (e.name = "" → (fillFromHydration e hp).name = hp.name) ∧
    (e.tagline ≠ "" → (fillFromHydration e hp).tagline = e.tagline) ∧
    (e.tagline = "" → (fillFromHydration e hp).tagline = hp.tagline) ∧
    (e.categories ≠ [] → (fillFromHydration e hp).categories = e.categories) ∧
    (e.categories = [] → (fillFromHydration e hp).categories = hp.categories) ∧
    (0 < hp.voteCount → (fillFromHydration e hp).voteCount = hp.voteCount) ∧
    (hp.voteCount ≤ 0 → (fillFromHydration e hp).voteCount = e.voteCount) ∧
    (0 < hp.commentCount → (fillFromHydration e hp).commentCount = hp.commentCount) ∧
    (hp.commentCount ≤ 0 → (fillFromHydration e hp).commentCount = e.commentCount) ∧
    (0 < hp.rank → (fillFromHydration e hp).rank = hp.rank) ∧
    (hp.rank ≤ 0 → (fillFromHydration e hp).rank = e.rank) ∧
    (∀ (rest products : List Product) (index : List (String × Nat)) (idx : Nat),
      hp.slug ≠ "" → assocGet index hp.slug = some idx → products.get? idx = some e →
      lbMergeLoop (hp :: rest) products index =
        lbMergeLoop rest (products.set idx (fillFromHydration e hp)) index) := by
  refine ⟨rfl, rfl, ?_, ?_, ?_, ?_, ?_, ?_, ?_, ?_, ?_, ?_, ?_, ?_, ?_⟩
  · intro h; simp [fillFromHydration, NewProduct, h]
  · intro h; simp [fillFromHydration, NewProduct, h]
  · intro h; simp [fillFromHydration, NewProduct, h]
  · intro h; simp [fillFromHydration, NewProduct, h]
  · intro h; simp [fillFromHydration, NewProduct, List.isEmpty_iff, h]
  · intro h; simp [fillFromHydration, NewProduct, List.isEmpty_iff, h]
  · intro h; simp [fillFromHydration, NewProduct, h]
  · intro h
    have h' : ¬ (0 < hp.voteCount) := by omega
    simp [fillFromHydration, NewProduct, h']
  · intro h; simp [fillFromHydration, NewProduct, h]
  · intro h
    have h' : ¬ (0 < hp.commentCount) := by omega
    simp [fillFromHydration, NewProduct, h']
  · intro h; simp [fillFromHydration, NewProduct, h]
  · intro h
    have h' : ¬ (0 < hp.rank) := by omega
    simp [fillFromHydration, NewProduct, h']
  · intro rest products index idx h1 h2 h3
    rw [List.get?_eq_getElem?] at h3
    simp [lbMergeLoop, h1, h2, h3]

/-- Witness for C5 at a record with blank name and zero counts merged with
a fully populated hydration record. -/
theorem C5_merge_fills_only_blanks_witness :
    (fillFromHydration (NewProduct "" "t" ["c"] 3 0 "s" "th" 0)
        (NewProduct "N" "T" ["C"] 7 5 "s" "TH" 4)).name = "N" ∧
    (fillFromHydration (NewProduct "" "t" ["c"] 3 0 "s" "th" 0)
        (NewProduct "N" "T" ["C"] 7 5 "s" "TH" 4)).tagline = "t" ∧
    (fillFromHydration (NewProduct "" "t" ["c"] 3 0 "s" "th" 0)
        (NewProduct "N" "T" ["C"] 7 5 "s" "TH" 4)).voteCount = 7 ∧
    (fillFromHydration (NewProduct "" "t" ["c"] 3 0 "s" "th" 0)
        (NewProduct "N" "T" ["C"] 7 5 "s" "TH" 4)).rank = 4 ∧
    (fillFromHydration (NewProduct "" "t" ["c"] 3 0 "s" "th" 0)
        (NewProduct "N" "T" ["C"] 7 5 "s" "TH" 4)).thumbnailURL = "th" := by
  have h := C5_merge_fills_only_blanks (NewProduct "" "t" ["c"] 3 0 "s" "th" 0)
    (NewProduct "N" "T" ["C"] 7 5 "s" "TH" 4)
  exact ⟨h.2.2.2.1 (by decide), h.2.2.2.2.1 (by decide), h.2.2.2.2.2.2.2.2.1 (by decide),
    h.2.2.2.2.2.2.2.2.2.2.2.2.1 (by decide), h.2.1⟩

/-- C9: calling `GetLeaderboard` twice with identical period and date
(starting from an empty cache and a successful first call) issues exactly
one transport fetch: the first call fetches once and stores the reconciled
result, the second finds it in the cache, fetches zero times, and returns a
value-equal result, leaving the cache unchanged. -/
theorem C9_cache_hit_single_fetch (tr : Transport) (period : Period) (date : Date)
    (ps : List Product) (h : (GetLeaderboard tr [] period date).res = .ok ps) :
    (GetLeaderboard tr [] period date).fetches = 1 ∧
    (GetLeaderboard tr (GetLeaderboard tr [] period date).cache period date).fetches = 0 ∧
    (GetLeaderboard tr (GetLeaderboard tr [] period date).cache period date).res = .ok ps ∧
    (GetLeaderboard tr (GetLeaderboard tr [] period date).cache period date).cache =
      (GetLeaderboard tr [] period date).cache := by
  cases htr : tr (baseURL ++ period.URLPath date) with
  | error e =>
    rw [GetLeaderboard] at h
    simp only [cacheGet, List.find?, Option.map_none', htr] at h
    exact Except.noConfusion h
  | ok html =>
    rw [GetLeaderboard] at h
    simp only [cacheGet, List.find?, Option.map_none', htr] at h
    simp [GetLeaderboard, cacheGet, cachePut, List.find?, htr, h]

/-- Witness for C9 with a transport that always serves an entity-free page. -/
theorem C9_cache_hit_single_fetch_witness :
    ((GetLeaderboard (fun _ => .ok ⟨"", emptyFixtureDoc, []⟩) [] .Daily ⟨2025, 2, 18⟩).res =
        .ok []) ∧
    (GetLeaderboard (fun _ => .ok ⟨"", emptyFixtureDoc, []⟩) [] .Daily ⟨2025, 2, 18⟩).fetches = 1 ∧
    (GetLeaderboard (fun _ => .ok ⟨"", emptyFixtureDoc, []⟩)
      (GetLeaderboard (fun _ => .ok ⟨"", emptyFixtureDoc, []⟩) [] .Daily ⟨2025, 2, 18⟩).cache
      .Daily ⟨2025, 2, 18⟩).fetches = 0 := by
  have h : (GetLeaderboard (fun _ => .ok ⟨"", emptyFixtureDoc, []⟩) [] .Daily ⟨2025, 2, 18⟩).res =
      .ok [] := rfl
  have happ := C9_cache_hit_single_fetch (fun _ => .ok ⟨"", emptyFixtureDoc, []⟩) .Daily
    ⟨2025, 2, 18⟩ [] h
  exact ⟨h, happ.1, happ.2.1⟩

/-- The renumbering loop writes rank `i+1` at offset `i`. -/
theorem renumberFrom_map_rank (i : Int) (l : List Product) :
    (renumberFrom i l).map Product.rank =
      (List.range l.length).map (fun k : Nat => i + (k : Int) + 1) := by
  induction l generalizing i with
  | nil => rfl
  | cons p ps ih =>
    simp only [renumberFrom, NewProduct, List.map_cons, List.length_cons,
      List.range_succ_eq_map, List.map_map]
    congr 1
    · push_cast; ring
    · rw [ih (i + 1)]
      congr 1
      funext k
      simp only [Function.comp_apply]
      push_cast
      ring

theorem renumberFrom_length (i : Int) (l : List Product) :
    (renumberFrom i l).length = l.length := by
  induction l generalizing i with
  | nil => rfl
  | cons p ps ih => simp [renumberFrom, ih]

/-- C3: for every successfully parsed leaderboard with N products, the
ranks of the returned products are exactly 1..N in positional order — no
gaps, no duplicates. -/
theorem C3_rank_contiguity (raw : String) (doc : Node) :
    (ParseLeaderboard raw doc).map Product.rank =
      (List.range (ParseLeaderboard raw doc).length).map (fun i : Nat => (i : Int) + 1) := by
  unfold ParseLeaderboard renumber
  rw [renumberFrom_map_rank, renumberFrom_length]
  have hf : (fun k : Nat => (0 : Int) + (k : Int) + 1) = (fun i : Nat => (i : Int) + 1) := by
    funext k
    ring
  rw [hf]

/-- The Go min-idiom `if q < mp then q else mp` is `min`. -/
theorem goMinEq : (fun mp q : Int => if q < mp then q else mp) = min := by
  funext a b
  by_cases h : b < a
  · rw [if_pos h]
    exact (min_eq_right (le_of_lt h)).symm
  · rw [if_neg h]
    exact (min_eq_left (by omega)).symm

theorem foldl_min_mem (l : List Int) : ∀ p0, l.foldl min p0 ∈ p0 :: l := by
  induction l with
  | nil => intro p0; simp
  | cons q qs ih =>
    intro p0
    rcases List.mem_cons.mp (ih (min p0 q)) with h | h
    · rcases min_choice p0 q with hc | hc <;> rw [List.foldl_cons, h, hc]
      · exact List.mem_cons_self _ _
      · exact List.mem_cons_of_mem _ (List.mem_cons_self _ _)
    · exact List.mem_cons_of_mem _ (List.mem_cons_of_mem _ (by rw [List.foldl_cons]; exact h))

theorem foldl_min_le (l : List Int) : ∀ p0, ∀ x ∈ p0 :: l, l.foldl min p0 ≤ x := by
  induction l with
  | nil =>
    intro p0 x hx
    simp at hx
    simp [hx]
  | cons q qs ih =>
    intro p0 x hx
    rw [List.foldl_cons]
    rcases List.mem_cons.mp hx with rfl | hx'
    · exact le_trans (ih (min x q) (min x q) (List.mem_cons_self _ _)) (min_le_left _ _)
    · rcases List.mem_cons.mp hx' with rfl | hx''
      · exact le_trans (ih (min p0 x) (min p0 x) (List.mem_cons_self _ _)) (min_le_right _ _)
      · exact ih (min p0 q) x (List.mem_cons_of_mem _ hx'')

theorem digitsToInt_nonneg (ds : List Char) (h : ds.all Char.isDigit) :
    0 ≤ digitsToInt ds := by
  suffices hgen : ∀ acc : Int, 0 ≤ acc →
      0 ≤ ds.foldl (fun acc c => acc * 10 + (c.toNat - 48 : Int)) acc by
    exact hgen 0 le_rfl
  induction ds with
  | nil => intro acc hacc; simpa using hacc
  | cons c rest ih =>
    intro acc hacc
    simp only [List.all_cons, Bool.and_eq_true] at h
    have hc : 48 ≤ c.toNat := by
      have hd := h.1
      simp [Char.isDigit] at hd
      exact hd.1
    refine ih h.2 _ ?_
    show 0 ≤ acc * 10 + ((c.toNat : Int) - 48)
    omega

theorem atoiChars_digits (ds : List Char) (h1 : ds ≠ []) (h2 : ds.all Char.isDigit) :
    atoiChars ds = some (digitsToInt ds) := by
  match ds, h1 with
  | c :: rest, _ =>
    simp only [List.all_cons, Bool.and_eq_true] at h2
    have hcd := h2.1
    have hcm : c ≠ '-' := by
      intro heq; rw [heq] at hcd; simp [Char.isDigit] at hcd
    have hcp : c ≠ '+' := by
      intro heq; rw [heq] at hcd; simp [Char.isDigit] at hcd
    simp [atoiChars, hcm, hcp, List.all_cons, hcd, h2.2]

theorem parseCount_digits (ds : List Char) (h1 : ds ≠ []) (h2 : ds.all Char.isDigit) :
    parseCount (String.mk ds) = digitsToInt ds := by
  have hfilter : ds.filter (fun c => c ≠ ',') = ds := by
    apply List.filter_eq_self.mpr
    intro c hc
    have := List.all_eq_true.mp h2 c hc
    simp only [decide_eq_true_eq]
    intro heq
    rw [heq] at this
    simp [Char.isDigit] at this
  unfold parseCount atoi
  simp only [hfilter]
  rw [atoiChars_digits ds h1 h2]
  rfl

/-- `eatDigits1` captures a non-empty all-digit string. -/
theorem eatDigits1_digits (cs ds rest : List Char) (h : eatDigits1 cs = some (ds, rest)) :
    ds ≠ [] ∧ ds.all Char.isDigit := by
  unfold eatDigits1 at h
  by_cases he : (cs.takeWhile Char.isDigit).isEmpty
  · rw [if_pos he] at h; exact Option.noConfusion h
  · rw [if_neg he] at h
    injection h with h'
    have h1 := congrArg Prod.fst h'
    simp at h1
    subst h1
    refine ⟨by simpa [List.isEmpty_iff] using he, ?_⟩
    exact List.all_eq_true.mpr (fun c hc => List.mem_takeWhile_imp hc)

/-- `matchBareInt` captures a non-empty all-digit string. -/
theorem matchBareInt_digits (key : String) (cs : List Char) (s : String) (r : List Char)
    (h : matchBareInt key cs = some (s, r)) : s.data ≠ [] ∧ s.data.all Char.isDigit := by
  unfold matchBareInt at h
  cases h1 : eatLit ("\"" ++ key ++ "\":") cs with
  | none => rw [h1] at h; simp at h
  | some r1 =>
    rw [h1] at h
    simp only [Option.bind_eq_bind, Option.some_bind] at h
    cases h2 : eatDigits1 r1 with
    | none => rw [h2] at h; simp at h
    | some pr =>
      obtain ⟨ds, r2⟩ := pr
      rw [h2] at h
      simp at h
      obtain ⟨hs, hr⟩ := h
      have hd := eatDigits1_digits r1 ds r2 h2
      rw [← hs]
      simpa using hd

/-- Elements produced by `scanAllAux` come from a successful match. -/
theorem scanAllAux_mem {α : Type} (m : List Char → Option (α × List Char)) :
    ∀ (fuel : Nat) (cs : List Char) (a : α), a ∈ scanAllAux m fuel cs →
      ∃ sub r, m sub = some (a, r) := by
  intro fuel
  induction fuel with
  | zero => intro cs a h; simp [scanAllAux] at h
  | succ n ih =>
    intro cs a h
    match cs with
    | [] => simp [scanAllAux] at h
    | c :: rest =>
      rw [scanAllAux] at h
      cases hm : m (c :: rest) with
      | none =>
        rw [hm] at h
        exact ih rest a h
      | some pr =>
        obtain ⟨a', after⟩ := pr
        simp only [hm] at h
        by_cases hlen : after.length < (c :: rest).length
        · rw [if_pos hlen] at h
          rcases List.mem_cons.mp h with rfl | h'
          · exact ⟨c :: rest, after, hm⟩
          · exact ih after a h'
        · rw [if_neg hlen] at h
          rcases List.mem_cons.mp h with rfl | h'
          · exact ⟨c :: rest, after, hm⟩
          · exact ih rest a h'

/-- Every raw mined price value is non-negative. -/
theorem rawPriceValues_nonneg (rawHtml : String) :
    ∀ v ∈ rawPriceValues rawHtml, 0 ≤ v := by
  intro v hv
  unfold rawPriceValues at hv
  rcases List.mem_map.mp hv with ⟨ds, hmem, hveq⟩
  rcases scanAllAux_mem _ _ _ _ hmem with ⟨sub, r, hm⟩
  rcases matchBareInt_digits "price" sub ds r hm with ⟨h1, h2⟩
  have : parseCount ds = digitsToInt ds.data := by
    have := parseCount_digits ds.data h1 h2
    simpa using this
  rw [← hveq, this]
  exact digitsToInt_nonneg ds.data h2

/-- With a non-negative start and non-negative inputs, the Go `-1`-sentinel
minimum fold is the plain minimum fold. -/
theorem sentinel_fold_eq_min (vals : List Int) :
    ∀ p0, 0 ≤ p0 → (∀ v ∈ vals, 0 ≤ v) →
      vals.foldl (fun mp price => if mp = -1 ∨ price < mp then price else mp) p0 =
        vals.foldl min p0 := by
  induction vals with
  | nil => intro p0 _ _; rfl
  | cons q qs ih =>
    intro p0 hp0 hvals
    have hq : 0 ≤ q := hvals q (List.mem_cons_self _ _)
    have hne : ¬ (p0 = -1) := by omega
    simp only [List.foldl_cons]
    have hstep : (if p0 = -1 ∨ q < p0 then q else p0) = min p0 q := by
      by_cases h : q < p0
      · rw [if_pos (Or.inr h)]
        exact (min_eq_right (le_of_lt h)).symm
      · rw [if_neg (by tauto)]
        exact (min_eq_left (by omega)).symm
    rw [hstep]
    exact ih (min p0 q) (le_min hp0 hq) (fun v hv => hvals v (List.mem_cons_of_mem _ hv))

/-- C7: pricing resolution prefers structured product-offer pricing (minimum
across offer blocks) over raw `"price"` fields (minimum, used only when no
structured offer pricing exists); 0 renders as "Free" and positive N as
"$N"; a fixture with a structured offer price 49 and a raw price 0 resolves
to "$49", not "Free". -/
theorem C7_pricing_precedence :
    (∀ (payloads : List GoJson) (p : Int), parsePricingFromJSONLD payloads = some p →
      p ∈ allOfferPrices payloads ∧ ∀ q ∈ allOfferPrices payloads, p ≤ q) ∧
    (∀ (payloads : List GoJson) (rawHtml : String) (p : Int),
      parsePricingFromJSONLD payloads = some p →
      parsePricing payloads rawHtml = formatPrice p) ∧
    (∀ (payloads : List GoJson) (rawHtml : String),
      parsePricingFromJSONLD payloads = none → rawPriceValues rawHtml = [] →
      parsePricing payloads rawHtml = "") ∧
    (∀ (payloads : List GoJson) (rawHtml : String),
      parsePricingFromJSONLD payloads = none → rawPriceValues rawHtml ≠ [] →
      ∃ p, parsePricing payloads rawHtml = formatPrice p ∧
        p ∈ rawPriceValues rawHtml ∧ ∀ q ∈ rawPriceValues rawHtml, p ≤ q) ∧
    formatPrice 0 = "Free" ∧
    (∀ n : Int, 0 < n → formatPrice n = "$" ++ toString n) ∧
    parsePricing [offer49Payload] price0Raw = "$49" := by
  refine ⟨?_, ?_, ?_, ?_, rfl, ?_, by rfl⟩
  · intro payloads p h
    unfold parsePricingFromJSONLD at h
    unfold allOfferPrices
    cases hpr : (payloads.map collectProductPrices).flatten with
    | nil => rw [hpr] at h; exact Option.noConfusion h
    | cons p0 rest =>
      rw [hpr] at h
      injection h with h'
      rw [goMinEq] at h'
      subst h'
      exact ⟨foldl_min_mem rest p0, foldl_min_le rest p0⟩
  · intro payloads rawHtml p h
    unfold parsePricing
    rw [h]
  · intro payloads rawHtml h hraw
    unfold parsePricing
    rw [h]
    have : scanAll (matchBareInt "price") rawHtml.data = [] := by
      unfold rawPriceValues at hraw
      exact List.map_eq_nil_iff.mp hraw
    simp [this, scanAll] at *
    simp [this]
  · intro payloads rawHtml h hraw
    unfold parsePricing
    rw [h]
    have hmsne : ¬ (scanAll (matchBareInt "price") rawHtml.data).isEmpty := by
      unfold rawPriceValues at hraw
      intro hcon
      exact hraw (by simp [List.isEmpty_iff.mp hcon])
    rw [if_neg hmsne]
    have hfold :
        (scanAll (matchBareInt "price") rawHtml.data).foldl
          (fun mp ds => if mp = -1 ∨ parseCount ds < mp then parseCount ds else mp) (-1) =
        (rawPriceValues rawHtml).foldl
          (fun mp price => if mp = -1 ∨ price < mp then price else mp) (-1) := by
      unfold rawPriceValues
      rw [List.foldl_map]
    cases hvals : rawPriceValues rawHtml with
    | nil => exact absurd hvals hraw
    | cons v0 vrest =>
      have hnn := rawPriceValues_nonneg rawHtml
      rw [hvals] at hnn
      have hv0 : 0 ≤ v0 := hnn v0 (List.mem_cons_self _ _)
      have hsent :
          (v0 :: vrest).foldl (fun mp price => if mp = -1 ∨ price < mp then price else mp) (-1) =
            vrest.foldl min v0 := by
        rw [List.foldl_cons]
        have hfirst : (if (-1 : Int) = -1 ∨ v0 < -1 then v0 else -1) = v0 := by
          rw [if_pos (Or.inl rfl)]
        rw [hfirst]
        exact sentinel_fold_eq_min vrest v0 hv0
          (fun v hv => hnn v (List.mem_cons_of_mem _ hv))
      have hmem := foldl_min_mem vrest v0
      have hle := foldl_min_le vrest v0
      have hminnn : 0 ≤ vrest.foldl min v0 := by
        rcases List.mem_cons.mp hmem with heq | hmem'
        · rw [heq]; exact hv0
        · exact hnn _ (List.mem_cons_of_mem _ hmem')
      refine ⟨vrest.foldl min v0, ?_, hmem, hle⟩
      have hminne : ¬ (vrest.foldl min v0 < 0) := by omega
      simp only [hfold, hvals, hsent]
      rw [if_neg (by omega)]
  · intro n hn
    unfold formatPrice
    rw [if_neg (by omega)]

/-- Witness for C7: the structured offer price 49 wins over the raw price 0. -/
theorem C7_pricing_precedence_witness :
    parsePricingFromJSONLD [offer49Payload] = some 49 ∧
    parsePricing [offer49Payload] price0Raw = formatPrice 49 := by
  have h : parsePricingFromJSONLD [offer49Payload] = some 49 := rfl
  exact ⟨h, C7_pricing_precedence.2.1 [offer49Payload] price0Raw 49 h⟩

theorem kassocGet_put_self (m : List ((String × String) × Int)) (k : String × String) (v : Int) :
    kassocGet (kassocPut m k v) k = some v := by
  induction m with
  | nil => simp [kassocPut, kassocGet]
  | cons e rest ih =>
    obtain ⟨k', v'⟩ := e
    by_cases h : k' = k
    · simp [kassocPut, kassocGet, h]
    · simp only [kassocPut, if_neg h, kassocGet, List.find?, decide_eq_false h]
      simpa [kassocGet] using ih

theorem kassocGet_put_ne (m : List ((String × String) × Int)) (k k' : String × String) (v : Int)
    (hne : k' ≠ k) : kassocGet (kassocPut m k v) k' = kassocGet m k' := by
  have hne2 : ¬ (k = k') := fun hh => hne hh.symm
  induction m with
  | nil => simp [kassocPut, kassocGet, List.find?, decide_eq_false hne2]
  | cons e rest ih =>
    obtain ⟨k0, v0⟩ := e
    by_cases h : k0 = k
    · subst h
      simp only [kassocPut, if_pos rfl, kassocGet, List.find?,
        decide_eq_false (fun hh : k0 = k' => hne2 hh)]
    · by_cases h2 : k0 = k'
      · subst h2
        simp [kassocPut, if_neg h, kassocGet, List.find?]
      · simp only [kassocPut, if_neg h, kassocGet, List.find?, decide_eq_false h2]
        simpa [kassocGet] using ih

theorem firstOccAux_congr_seen {α : Type} [DecidableEq α] (l : List α) :
    ∀ s1 s2 : List α, (∀ x, x ∈ s1 ↔ x ∈ s2) → firstOccAux l s1 = firstOccAux l s2 := by
  induction l with
  | nil => intro s1 s2 _; rfl
  | cons x rest ih =>
    intro s1 s2 hs
    by_cases hx : x ∈ s1
    · simp only [firstOccAux, if_pos hx, if_pos ((hs x).mp hx)]
      exact ih s1 s2 hs
    · simp only [firstOccAux, if_neg hx, if_neg (fun hc => hx ((hs x).mpr hc))]
      refine congrArg (x :: ·) (ih _ _ ?_)
      intro y
      simp only [List.mem_cons]
      exact or_congr Iff.rfl (hs y)

theorem firstOccAux_sub {α : Type} [DecidableEq α] (l : List α) :
    ∀ seen, ∀ x ∈ firstOccAux l seen, x ∈ l ∧ x ∉ seen := by
  induction l with
  | nil => intro seen x hx; simp [firstOccAux] at hx
  | cons y rest ih =>
    intro seen x hx
    by_cases hy : y ∈ seen
    · rw [firstOccAux, if_pos hy] at hx
      have := ih seen x hx
      exact ⟨List.mem_cons_of_mem _ this.1, this.2⟩
    · rw [firstOccAux, if_neg hy] at hx
      rcases List.mem_cons.mp hx with rfl | hx'
      · exact ⟨List.mem_cons_self _ _, hy⟩
      · have := ih (y :: seen) x hx'
        refine ⟨List.mem_cons_of_mem _ this.1, fun hc => this.2 (List.mem_cons_of_mem _ hc)⟩

theorem firstOccAux_nodup {α : Type} [DecidableEq α] (l : List α) :
    ∀ seen, (firstOccAux l seen).Nodup := by
  induction l with
  | nil => intro seen; simp [firstOccAux]
  | cons y rest ih =>
    intro seen
    by_cases hy : y ∈ seen
    · rw [firstOccAux, if_pos hy]; exact ih seen
    · rw [firstOccAux, if_neg hy]
      refine List.Nodup.cons ?_ (ih (y :: seen))
      intro hc
      exact (firstOccAux_sub rest (y :: seen) y hc).2 (List.mem_cons_self _ _)

theorem proConCountsOf_cons (n t : String) (c : Int) (rest : List (String × String × Int))
    (k : String × String) :
    proConCountsOf ((n, t, c) :: rest) k =
      if (n, t) = k then c :: proConCountsOf rest k else proConCountsOf rest k := by
  by_cases h : (n, t) = k
  · simp [proConCountsOf, proConKeyOf, List.filter, h]
  · simp [proConCountsOf, proConKeyOf, List.filter, h]

/-- The dedup loop, characterized: order entries first (their running
maxima extended by the tail), then the first occurrences of new keys. -/
theorem dedupeProConTagsLoop_spec (ms : List (String × String × Int)) :
    ∀ (m : List ((String × String) × Int)) (o : List (String × String)),
      (∀ k, (kassocGet m k).isSome ↔ k ∈ o) →
      dedupeProConTagsLoop ms m o =
        (o ++ firstOccAux (ms.map proConKeyOf) o).map
          (fun k => NewProConTag k.1 k.2 (mergedCount m ms k)) := by
  induction ms with
  | nil =>
    intro m o hmo
    simp only [dedupeProConTagsLoop, List.map_nil, firstOccAux, List.append_nil]
    refine List.map_congr_left ?_
    intro k hk
    have hsome : (kassocGet m k).isSome := (hmo k).mpr hk
    cases hg : kassocGet m k with
    | none => rw [hg] at hsome; simp at hsome
    | some c => simp [mergedCount, hg, proConCountsOf]
  | cons e rest ih =>
    intro m o hmo
    obtain ⟨n, t, c⟩ := e
    cases hg : kassocGet m (n, t) with
    | some prev =>
      have hko : (n, t) ∈ o := (hmo (n, t)).mp (by simp [hg])
      have hfo : firstOccAux (((n, t, c) :: rest).map proConKeyOf) o =
          firstOccAux (rest.map proConKeyOf) o := by
        simp only [List.map_cons, proConKeyOf, firstOccAux, if_pos hko]
      by_cases hlt : prev < c
      · rw [dedupeProConTagsLoop, hg]
        simp only
        rw [if_pos hlt]
        rw [ih (kassocPut m (n, t) c) o (fun k => by
          by_cases hk : k = (n, t)
          · subst hk
            rw [kassocGet_put_self]
            simpa using hko
          · rw [kassocGet_put_ne m (n, t) k c hk]
            exact hmo k)]
        rw [hfo]
        refine List.map_congr_left ?_
        intro k hk
        by_cases hkk : k = (n, t)
        · subst hkk
          simp only [mergedCount, kassocGet_put_self, hg, proConCountsOf_cons,
            eq_self_iff_true, if_true, List.foldl_cons]
          rw [max_eq_right (le_of_lt hlt)]
        · have hne3 : ¬ ((n, t) = k) := fun hc2 => hkk hc2.symm
          simp only [mergedCount, kassocGet_put_ne m (n, t) k c hkk, proConCountsOf_cons,
            if_neg hne3]
      · rw [dedupeProConTagsLoop, hg]
        simp only
        rw [if_neg hlt]
        rw [ih m o hmo, hfo]
        refine List.map_congr_left ?_
        intro k hk
        by_cases hkk : k = (n, t)
        · subst hkk
          simp only [mergedCount, hg, proConCountsOf_cons, eq_self_iff_true, if_true,
            List.foldl_cons]
          rw [max_eq_left (by omega)]
        · have hne3 : ¬ ((n, t) = k) := fun hc2 => hkk hc2.symm
          simp only [mergedCount, proConCountsOf_cons, if_neg hne3]
    | none =>
      have hko : (n, t) ∉ o := by
        intro hc2
        have := (hmo (n, t)).mpr hc2
        rw [hg] at this
        simp at this
      rw [dedupeProConTagsLoop, hg]
      simp only
      rw [ih (kassocPut m (n, t) c) (o ++ [(n, t)]) (fun k => by
        by_cases hk : k = (n, t)
        · subst hk
          rw [kassocGet_put_self]
          simp
        · rw [kassocGet_put_ne m (n, t) k c hk]
          rw [hmo k]
          simp [List.mem_append]
          intro hc2
          exact absurd hc2 hk)]
      have hfo : firstOccAux (((n, t, c) :: rest).map proConKeyOf) o =
          (n, t) :: firstOccAux (rest.map proConKeyOf) ((n, t) :: o) := by
        simp only [List.map_cons, proConKeyOf, firstOccAux, if_neg hko]
      rw [hfo]
      have hseen : firstOccAux (rest.map proConKeyOf) (o ++ [(n, t)]) =
          firstOccAux (rest.map proConKeyOf) ((n, t) :: o) := by
        refine firstOccAux_congr_seen _ _ _ ?_
        intro x
        simp [List.mem_append, List.mem_cons]
        tauto
      rw [hseen]
      have hlist : (o ++ [(n, t)]) ++ firstOccAux (rest.map proConKeyOf) ((n, t) :: o) =
          o ++ ((n, t) :: firstOccAux (rest.map proConKeyOf) ((n, t) :: o)) := by
        simp
      rw [hlist]
      refine List.map_congr_left ?_
      intro k hk
      by_cases hkk : k = (n, t)
      · subst hkk
        simp only [mergedCount, kassocGet_put_self, hg, proConCountsOf_cons, eq_self_iff_true,
          if_true, maxOfCounts]
      · have hne3 : ¬ ((n, t) = k) := fun hc2 => hkk hc2.symm
        simp only [mergedCount, kassocGet_put_ne m (n, t) k c hkk, proConCountsOf_cons,
          if_neg hne3]

theorem foldl_max_mem (l : List Int) : ∀ p0, l.foldl max p0 ∈ p0 :: l := by
  induction l with
  | nil => intro p0; simp
  | cons q qs ih =>
    intro p0
    rcases List.mem_cons.mp (ih (max p0 q)) with h | h
    · rcases max_choice p0 q with hc | hc <;> rw [List.foldl_cons, h, hc]
      · exact List.mem_cons_self _ _
      · exact List.mem_cons_of_mem _ (List.mem_cons_self _ _)
    · exact List.mem_cons_of_mem _ (List.mem_cons_of_mem _ (by rw [List.foldl_cons]; exact h))

theorem foldl_max_ge (l : List Int) : ∀ p0, ∀ x ∈ p0 :: l, x ≤ l.foldl max p0 := by
  induction l with
  | nil =>
    intro p0 x hx
    simp at hx
    simp [hx]
  | cons q qs ih =>
    intro p0 x hx
    rw [List.foldl_cons]
    rcases List.mem_cons.mp hx with rfl | hx'
    · exact le_trans (le_max_left _ _) (ih (max x q) (max x q) (List.mem_cons_self _ _))
    · rcases List.mem_cons.mp hx' with rfl | hx''
      · exact le_trans (le_max_right _ _) (ih (max p0 x) (max p0 x) (List.mem_cons_self _ _))
      · exact ih (max p0 q) x (List.mem_cons_of_mem _ hx'')

/-- C6: `parseProConTags` yields at most one tag per (name, tagType) pair;
when the pair recurs, the retained count is the maximum; tags appear in
first-seen order; and the 2-and-9 fixture yields exactly one tag with
count 9 for that pair. -/
theorem C6_procon_max_count :
    (∀ rawHtml : String,
      ((parseProConTags rawHtml).map tagKeyOf).Nodup ∧
      (parseProConTags rawHtml).map tagKeyOf =
        firstOccurrences ((proConMatches rawHtml).map proConKeyOf) ∧
      ∀ t ∈ parseProConTags rawHtml,
        t.count ∈ proConCountsOf (proConMatches rawHtml) (tagKeyOf t) ∧
        ∀ c ∈ proConCountsOf (proConMatches rawHtml) (tagKeyOf t), c ≤ t.count) ∧
    parseProConTags proConFixtureRaw =
      [NewProConTag "smart replies" "Positive" 9, NewProConTag "mobile" "Negative" 1] := by
  constructor
  · intro rawHtml
    have hspec := dedupeProConTagsLoop_spec (proConMatches rawHtml) [] []
      (fun k => by simp [kassocGet, List.find?])
    have hmap : parseProConTags rawHtml =
        (firstOccurrences ((proConMatches rawHtml).map proConKeyOf)).map
          (fun k => NewProConTag k.1 k.2 (mergedCount [] (proConMatches rawHtml) k)) := by
      unfold parseProConTags firstOccurrences
      rw [hspec]
      simp
    have hkeys : (parseProConTags rawHtml).map tagKeyOf =
        firstOccurrences ((proConMatches rawHtml).map proConKeyOf) := by
      rw [hmap, List.map_map]
      have hcomp : (tagKeyOf ∘ fun k : String × String =>
          NewProConTag k.1 k.2 (mergedCount [] (proConMatches rawHtml) k)) = id := by
        funext k
        rfl
      rw [hcomp, List.map_id]
    refine ⟨?_, hkeys, ?_⟩
    · rw [hkeys]
      exact firstOccAux_nodup _ []
    · intro t ht
      rw [hmap] at ht
      rcases List.mem_map.mp ht with ⟨k, hk, rfl⟩
      have hkin : k ∈ (proConMatches rawHtml).map proConKeyOf :=
        (firstOccAux_sub _ [] k hk).1
      have hcounts : proConCountsOf (proConMatches rawHtml) k ≠ [] := by
        rcases List.mem_map.mp hkin with ⟨e, he, hke⟩
        unfold proConCountsOf
        simp only [ne_eq, List.map_eq_nil_iff, List.filter_eq_nil_iff]
        push_neg
        exact ⟨e, he, by simp [hke]⟩
      have hkey : tagKeyOf (NewProConTag k.1 k.2 (mergedCount [] (proConMatches rawHtml) k)) = k := rfl
      rw [hkey]
      have hmc : mergedCount [] (proConMatches rawHtml) k =
          maxOfCounts (proConCountsOf (proConMatches rawHtml) k) := by
        simp [mergedCount, kassocGet, List.find?]
      obtain ⟨c0, cs, hcs⟩ := List.exists_cons_of_ne_nil hcounts
      have hcount : (NewProConTag k.1 k.2 (mergedCount [] (proConMatches rawHtml) k)).count =
          cs.foldl max c0 := by
        show mergedCount [] (proConMatches rawHtml) k = _
        rw [hmc, hcs]
        rfl
      constructor
      · rw [hcount, hcs]
        exact foldl_max_mem cs c0
      · intro c hc
        rw [hcs] at hc
        rw [hcount]
        exact foldl_max_ge cs c0 c hc
  · rfl

/-- Witness for C6 at the 2-and-9 fixture: the retained count 9 is a mined
count for the pair and dominates the mined counts 2 and 9. -/
theorem C6_procon_max_count_witness :
    (NewProConTag "smart replies" "Positive" 9) ∈ parseProConTags proConFixtureRaw ∧
    (9 : Int) ∈ proConCountsOf (proConMatches proConFixtureRaw)
      (tagKeyOf (NewProConTag "smart replies" "Positive" 9)) ∧
    ∀ c ∈ proConCountsOf (proConMatches proConFixtureRaw)
      (tagKeyOf (NewProConTag "smart replies" "Positive" 9)), c ≤ 9 := by
  have hmem : (NewProConTag "smart replies" "Positive" 9) ∈ parseProConTags proConFixtureRaw := by
    rw [(C6_procon_max_count).2]
    exact List.mem_cons_self _ _
  have h := ((C6_procon_max_count).1 proConFixtureRaw).2.2 _ hmem
  exact ⟨hmem, h.1, h.2⟩

/-- C2 counterexample: on the known bot-challenge interstitial (title
exactly "Just a moment..." plus the challenge-script marker) the
leaderboard parse returns an empty result with a nil error — not a
distinct non-retryable error — so block detection does not extend beyond
the search page type. -/
theorem C2_block_detection_counterexample :
    looksLikeCloudflareChallenge cfChallengeRaw = true ∧
    ParseLeaderboard cfChallengeRaw cfChallengeDoc = [] ∧
    ParseCategoryProducts cfChallengeDoc = ([], []) := by
  exact ⟨rfl, rfl, rfl⟩

/-- C2 (amended): only the search-page parse performs block detection: for
every raw input recognized as the challenge interstitial,
`ParseSearchResults` fails with the distinct Cloudflare error (different
from the empty-result error), which the tool-server layer maps to an
explicitly non-retryable message. -/
theorem C2_block_detection_search_only (raw : String) (doc : Node)
    (h : looksLikeCloudflareChallenge raw = true) :
    ParseSearchResults raw doc = .error cfBlockedMsg ∧
    cfBlockedMsg ≠ noSearchResultsMsg ∧
    searchHandlerErrorMessage cfBlockedMsg =
      "search blocked by Cloudflare challenge; retryable=false" := by
  refine ⟨?_, by decide, by rfl⟩
  unfold ParseSearchResults
  rw [h]
  rfl

/-- Witness for C2 at the concrete challenge interstitial. -/
theorem C2_block_detection_search_only_witness :
    looksLikeCloudflareChallenge cfChallengeRaw = true ∧
    ParseSearchResults cfChallengeRaw cfChallengeDoc = .error cfBlockedMsg := by
  have h : looksLikeCloudflareChallenge cfChallengeRaw = true := rfl
  exact ⟨h, (C2_block_detection_search_only cfChallengeRaw cfChallengeDoc h).1⟩

theorem insertRank_perm (x : Product) (l : List Product) :
    (insertRank x l).Perm (x :: l) := by
  induction l with
  | nil => exact List.Perm.refl _
  | cons y ys ih =>
    unfold insertRank
    by_cases h : rankLt y x = true
    · rw [if_pos h]
      exact (ih.cons y).trans (List.Perm.swap x y ys)
    · rw [if_neg h]

theorem sortByRankStable_perm (l : List Product) : (sortByRankStable l).Perm l := by
  induction l with
  | nil => exact List.Perm.refl _
  | cons x xs ih =>
    exact (insertRank_perm x (sortByRankStable xs)).trans (ih.cons x)

theorem mem_insertRank (y x : Product) (l : List Product) :
    y ∈ insertRank x l ↔ y = x ∨ y ∈ l := by
  rw [(insertRank_perm x l).mem_iff]
  simp

theorem rankLt_asymm (a b : Product) (h : rankLt a b = true) : rankLt b a = false := by
  unfold rankLt at h ⊢
  split_ifs at h ⊢ <;> simp_all <;> omega

theorem rankLt_negtrans (a b c : Product) (h1 : rankLt b a = false) (h2 : rankLt c b = false) :
    rankLt c a = false := by
  unfold rankLt at h1 h2 ⊢
  split_ifs at h1 h2 ⊢ <;> simp_all <;> omega

theorem pairwise_insertRank (x : Product) (l : List Product)
    (hl : List.Pairwise (fun p q => rankLt q p = false) l) :
    List.Pairwise (fun p q => rankLt q p = false) (insertRank x l) := by
  induction l with
  | nil => simp [insertRank]
  | cons y ys ih =>
    rcases List.pairwise_cons.mp hl with ⟨hy, hys⟩
    unfold insertRank
    by_cases h : rankLt y x = true
    · rw [if_pos h]
      refine List.pairwise_cons.mpr ⟨?_, ih hys⟩
      intro z hz
      rcases (mem_insertRank z x ys).mp hz with rfl | hz'
      · exact rankLt_asymm y z h
      · exact hy z hz'
    · rw [if_neg h]
      refine List.pairwise_cons.mpr ⟨?_, hl⟩
      intro z hz
      rcases List.mem_cons.mp hz with rfl | hz'
      · simpa using h
      · exact rankLt_negtrans x y z (by simpa using h) (hy z hz')

theorem sortByRankStable_sorted (l : List Product) :
    List.Pairwise (fun p q => rankLt q p = false) (sortByRankStable l) := by
  induction l with
  | nil => simp [sortByRankStable]
  | cons x xs ih => exact pairwise_insertRank x (sortByRankStable xs) ih

theorem filter_insertRank_pos (x : Product) (hx : ¬ (x.rank = 0)) (l : List Product) :
    (insertRank x l).filter (fun p => p.rank == 0) = l.filter (fun p => p.rank == 0) := by
  induction l with
  | nil => simp [insertRank, hx]
  | cons y ys ih =>
    unfold insertRank
    by_cases h : rankLt y x = true
    · rw [if_pos h]
      by_cases hy : y.rank = 0
      · simp only [List.filter_cons, hy]
        simp [ih]
      · simp only [List.filter_cons]
        rw [if_neg (by simpa using hy), if_neg (by simpa using hy)]
        exact ih
    · rw [if_neg h]
      simp only [List.filter_cons]
      rw [if_neg (by simpa using hx)]

theorem filter_insertRank_zero (x : Product) (hx : x.rank = 0) (l : List Product) :
    (insertRank x l).filter (fun p => p.rank == 0) =
      x :: l.filter (fun p => p.rank == 0) := by
  induction l with
  | nil => simp [insertRank, hx]
  | cons y ys ih =>
    unfold insertRank
    by_cases hy : y.rank = 0
    · have h : rankLt y x = false := by
        unfold rankLt
        rw [if_pos ⟨hy, hx⟩]
      rw [h]
      simp only [Bool.false_eq_true, if_false, List.filter_cons]
      rw [if_pos (by simpa using hx)]
    · have h : rankLt y x = true := by
        unfold rankLt
        rw [if_neg (fun hc => hy hc.1), if_neg hy, if_pos hx]
      rw [h]
      have hyb : ¬ ((y.rank == 0) = true) := by simpa using hy
      simp only [if_true, List.filter_cons, if_neg hyb]
      exact ih

theorem filter_sortByRankStable_zero (l : List Product) :
    (sortByRankStable l).filter (fun p => p.rank == 0) =
      l.filter (fun p => p.rank == 0) := by
  induction l with
  | nil => rfl
  | cons x xs ih =>
    show (insertRank x (sortByRankStable xs)).filter _ = _
    by_cases hx : x.rank = 0
    · rw [filter_insertRank_zero x hx, ih]
      simp only [List.filter_cons]
      rw [if_pos (by simpa using hx)]
    · rw [filter_insertRank_pos x hx, ih]
      simp only [List.filter_cons]
      rw [if_neg (by simpa using hx)]

theorem dedupeByNameAux_filter (l : List Product) :
    ∀ (seen : List String) (k : String),
      (dedupeByNameAux l seen).filter (fun p => nameKey p == k) =
        if k ∈ seen then [] else (l.find? (fun p => nameKey p == k)).toList := by
  induction l with
  | nil =>
    intro seen k
    by_cases h : k ∈ seen <;> simp [dedupeByNameAux, h]
  | cons p ps ih =>
    intro seen k
    unfold dedupeByNameAux
    by_cases hc : seen.contains (nameKey p)
    · rw [if_pos hc]
      have hpmem : nameKey p ∈ seen := by
        simpa using hc
      rw [ih seen k]
      by_cases hk : k ∈ seen
      · simp [hk]
      · have hne : ¬ (nameKey p == k) = true := by
          simp only [beq_iff_eq]
          intro hc2
          rw [hc2] at hpmem
          exact hk hpmem
        simp only [if_neg hk, List.find?]
        rw [Bool.of_not_eq_true hne]
    · rw [if_neg hc]
      simp only [List.filter_cons]
      by_cases hpk : (nameKey p == k) = true
      · have hkp : k = nameKey p := (beq_iff_eq.mp hpk).symm
        rw [if_pos hpk, ih (nameKey p :: seen) k]
        have hkin : k ∈ nameKey p :: seen := by rw [hkp]; exact List.mem_cons_self _ _
        rw [if_pos hkin]
        have hknotseen : k ∉ seen := by
          intro hk
          rw [hkp] at hk
          exact hc (by simpa using hk)
        rw [if_neg hknotseen]
        simp only [List.find?]
        rw [hpk]
        rfl
      · rw [if_neg hpk, ih (nameKey p :: seen) k]
        by_cases hk : k ∈ seen
        · have : k ∈ nameKey p :: seen := List.mem_cons_of_mem _ hk
          rw [if_pos this, if_pos hk]
        · have hkne : k ∉ nameKey p :: seen := by
            intro hcc
            rcases List.mem_cons.mp hcc with rfl | hcc'
            · exact hpk (by simp)
            · exact hk hcc'
          rw [if_neg hkne, if_neg hk]
          simp only [List.find?]
          rw [Bool.of_not_eq_true hpk]

theorem renumberFrom_countP_nameKey (k : String) (l : List Product) :
    ∀ i, (renumberFrom i l).countP (fun r => nameKey r == k) =
      l.countP (fun r => nameKey r == k) := by
  induction l with
  | nil => intro i; rfl
  | cons p ps ih =>
    intro i
    simp only [renumberFrom, List.countP_cons]
    rw [ih (i + 1)]
    rfl

/-- C4: after merging, the leaderboard list is stable-sorted by rank
ascending (rank 0 sorted last, keeping original order), then deduplicated
by case-insensitive trimmed name keeping the first occurrence, and
`ParseLeaderboard` is exactly this pipeline; two merged records with the
same name under different slugs leave exactly one output entry. -/
theorem C4_stable_sort_dedup :
    (∀ l : List Product, (sortByRankStable l).Perm l) ∧
    (∀ l : List Product,
      List.Pairwise (fun p q => rankLt q p = false) (sortByRankStable l)) ∧
    (∀ l : List Product, (sortByRankStable l).filter (fun p => p.rank == 0) =
      l.filter (fun p => p.rank == 0)) ∧
    (∀ (l : List Product) (k : String),
      (dedupeByName l).filter (fun p => nameKey p == k) =
        (l.find? (fun p => nameKey p == k)).toList) ∧
    (∀ (raw : String) (doc : Node), ParseLeaderboard raw doc =
      renumber (dedupeByName (sortByRankStable (lbMerged raw doc)))) ∧
    (∀ (merged : List Product) (p q : Product), p ∈ merged → q ∈ merged →
      nameKey p = nameKey q → p.slug ≠ q.slug →
      (renumber (dedupeByName (sortByRankStable merged))).countP
        (fun r => nameKey r == nameKey p) = 1) := by
  refine ⟨sortByRankStable_perm, sortByRankStable_sorted, filter_sortByRankStable_zero,
    ?_, fun raw doc => rfl, ?_⟩
  · intro l k
    have := dedupeByNameAux_filter l [] k
    simpa [dedupeByName] using this
  · intro merged p q hp hq hname hslug
    unfold renumber
    rw [renumberFrom_countP_nameKey]
    rw [List.countP_eq_length_filter]
    have hfd := dedupeByNameAux_filter (sortByRankStable merged) [] (nameKey p)
    simp only [List.not_mem_nil, if_false] at hfd
    unfold dedupeByName
    rw [hfd]
    have hpmem : p ∈ sortByRankStable merged := (sortByRankStable_perm merged).mem_iff.mpr hp
    have hsome : ((sortByRankStable merged).find? (fun r => nameKey r == nameKey p)).isSome := by
      rw [List.find?_isSome]
      exact ⟨p, hpmem, beq_iff_eq.mpr rfl⟩
    cases hf : (sortByRankStable merged).find? (fun r => nameKey r == nameKey p) with
    | none => rw [hf] at hsome; simp at hsome
    | some r => rfl

/-- Witness for C4 at a two-record merged list sharing one name under
different slugs: the output keeps exactly one entry for that name. -/
theorem C4_stable_sort_dedup_witness :
    (NewProduct "Same" "T1" [] 10 2 "slug-one" "" 1) ∈
      [NewProduct "Same" "T1" [] 10 2 "slug-one" "" 1,
       NewProduct "Same" "T2" [] 5 1 "slug-two" "" 2] ∧
    (renumber (dedupeByName (sortByRankStable
      [NewProduct "Same" "T1" [] 10 2 "slug-one" "" 1,
       NewProduct "Same" "T2" [] 5 1 "slug-two" "" 2]))).countP
        (fun r => nameKey r == nameKey (NewProduct "Same" "T1" [] 10 2 "slug-one" "" 1)) = 1 := by
  refine ⟨List.mem_cons_self _ _, ?_⟩
  exact C4_stable_sort_dedup.2.2.2.2.2
    [NewProduct "Same" "T1" [] 10 2 "slug-one" "" 1,
     NewProduct "Same" "T2" [] 5 1 "slug-two" "" 2]
    (NewProduct "Same" "T1" [] 10 2 "slug-one" "" 1)
    (NewProduct "Same" "T2" [] 5 1 "slug-two" "" 2)
    (List.mem_cons_self _ _)
    (List.mem_cons_of_mem _ (List.mem_cons_self _ _))
    (by decide) (by decide)

mutual
theorem findCtx_mem (p : Node → Ctx → Bool) (n : Node) (ctx : Ctx) (e : Node × Ctx)
    (h : e ∈ findCtx p n ctx) : e.1 ∈ n.allElems ∧ p e.1 e.2 = true :=
  match n with
  | .text _ => by simp [findCtx] at h
  | .elem t a cs => by
    rw [findCtx] at h
    rcases List.mem_append.mp h with h1 | h2
    · by_cases hp : p (.elem t a cs) ctx = true
      · rw [if_pos hp] at h1
        have he : e = (Node.elem t a cs, ctx) := List.mem_singleton.mp h1
        subst he
        exact ⟨by rw [Node.allElems]; exact List.mem_cons_self _ _, hp⟩
      · rw [if_neg hp] at h1
        simp at h1
    · have hk := findKids_mem p cs (.elem t a cs) ctx 0 e h2
      exact ⟨by rw [Node.allElems]; exact List.mem_cons_of_mem _ hk.1, hk.2⟩

theorem findKids_mem (p : Node → Ctx → Bool) (cs : List Node) (par : Node) (ctx : Ctx)
    (i : Nat) (e : Node × Ctx) (h : e ∈ findKids p cs par ctx i) :
    e.1 ∈ allElemsList cs ∧ p e.1 e.2 = true :=
  match cs with
  | [] => by simp [findKids] at h
  | c :: rest => by
    rw [findKids] at h
    rcases List.mem_append.mp h with h1 | h2
    · have hc := findCtx_mem p c ((par, i) :: ctx) e h1
      exact ⟨by rw [allElemsList]; exact List.mem_append_left _ hc.1, hc.2⟩
    · have hr := findKids_mem p rest par ctx (i + 1) e h2
      exact ⟨by rw [allElemsList]; exact List.mem_append_right _ hr.1, hr.2⟩
end

/-- A document-wide find is empty when no element can satisfy the
selector. -/
theorem docFind_eq_nil (p : Node → Ctx → Bool) (doc : Node)
    (h : ∀ n ∈ doc.allElems, ∀ ctx, p n ctx = false) : docFind p doc = [] := by
  cases hf : docFind p doc with
  | nil => rfl
  | cons e rest =>
    have hmem : e ∈ findCtx p doc [] := by
      have : e ∈ docFind p doc := by rw [hf]; exact List.mem_cons_self _ _
      exact this
    have hp := findCtx_mem p doc [] e hmem
    rw [h e.1 hp.1 e.2] at hp
    exact absurd hp.2 (by simp)

/-- A failed first-index search means the pattern starts at no suffix. -/
theorem idxOfChars_none (cs pat : List Char) (h : idxOfChars cs pat = none) :
    ∀ k, charsStartWith pat (cs.drop k) = false := by
  induction cs with
  | nil =>
    intro k
    unfold idxOfChars at h
    by_cases hp : pat.isEmpty
    · rw [if_pos hp] at h; exact Option.noConfusion h
    · match pat, hp with
      | q :: qs, _ => simp [charsStartWith, List.drop_nil]
  | cons c rest ih =>
    intro k
    unfold idxOfChars at h
    by_cases hs : charsStartWith pat (c :: rest) = true
    · rw [if_pos hs] at h; exact Option.noConfusion h
    · rw [if_neg hs] at h
      match k with
      | 0 => simpa using hs
      | k' + 1 =>
        refine ih ?_ k'
        cases hrec : idxOfChars rest pat with
        | none => rfl
        | some i => rw [hrec] at h; exact Option.noConfusion h

/-- A scanner whose matcher fails at every suffix yields nothing. -/
theorem scanAllAux_eq_nil {α : Type} (m : List Char → Option (α × List Char)) :
    ∀ (fuel : Nat) (cs : List Char), (∀ k, m (cs.drop k) = none) →
      scanAllAux m fuel cs = [] := by
  intro fuel
  induction fuel with
  | zero => intro cs _; rfl
  | succ n ih =>
    intro cs h
    match cs with
    | [] => rfl
    | c :: rest =>
      rw [scanAllAux]
      have h0 := h 0
      simp only [List.drop_zero] at h0
      rw [h0]
      exact ih rest (fun k => h (k + 1))

theorem scanFirst_eq_none {α : Type} (m : List Char → Option (α × List Char)) :
    ∀ (cs : List Char), (∀ k, m (cs.drop k) = none) → scanFirst m cs = none := by
  intro cs
  induction cs with
  | nil => intro _; rfl
  | cons c rest ih =>
    intro h
    rw [scanFirst]
    have h0 := h 0
    simp only [List.drop_zero] at h0
    rw [h0]
    exact ih (fun k => h (k + 1))

theorem matchSearchBlock_none (cs : List Char)
    (h : charsStartWith "\"productSearch\":\x7b\"__typename\":\"ProductSearchConnection\",\"edges\":[".data cs = false) :
    matchSearchBlock cs = none := by
  simp [matchSearchBlock, eatLit, h]

theorem matchFeaturedAt_none (cs : List Char)
    (h : charsStartWith "\"featuredAt\":\"".data cs = false) : matchFeaturedAt cs = none := by
  simp [matchFeaturedAt, eatLit, h]

theorem matchProConTag_none (cs : List Char)
    (h : charsStartWith "\"__typename\":\"ReviewAiProConTag\",\"id\":\"".data cs = false) :
    matchProConTag cs = none := by
  simp [matchProConTag, eatLit, h]

theorem matchBareIntPrice_none (cs : List Char)
    (h : charsStartWith "\"price\":".data cs = false) : matchBareInt "price" cs = none := by
  have heq : (("\"" ++ "price" ++ "\":" : String)) = "\"price\":" := rfl
  unfold matchBareInt
  rw [show eatLit ("\"" ++ "price" ++ "\":") cs = none by simp [eatLit, heq, h]]
  rfl

/-- C1 component: `ParseLeaderboard` on an entity-free page. -/
theorem parseLeaderboard_noEntities (raw : String) (doc : Node) (h : NoLbEntities raw doc) :
    ParseLeaderboard raw doc = [] := by
  obtain ⟨hhref, hpost, hmarker⟩ := h
  have h1 : docFind (fun n _ => attrStarts n "data-test" "post-item-") doc = [] :=
    docFind_eq_nil _ _ (fun n hn _ => hpost n hn)
  have h2 : docFind (fun n ctx =>
      isProductLink n && ctxAny ctx (fun a => attrStarts a "data-test" "post-name-")) doc = [] :=
    docFind_eq_nil _ _ (fun n hn ctx => by simp [isProductLink, hhref n hn])
  have h3 : docFind (fun n ctx =>
      isProductLink n && ctxAny ctx (fun a => a.tagIs "main")) doc = [] :=
    docFind_eq_nil _ _ (fun n hn ctx => by simp [isProductLink, hhref n hn])
  have h4 : parseHydrationLeaderboardProducts raw = [] := by
    unfold parseHydrationLeaderboardProducts hydrationBlocks
    rw [hydrationBlocksAux, hmarker]
    rfl
  unfold ParseLeaderboard lbMerged
  rw [h1, h2, h3, h4]
  rfl

/-- C1 component: `ParseCategoryProducts` on an entity-free page. -/
theorem parseCategoryProducts_noEntities (doc : Node) (h : NoCatEntities doc) :
    ParseCategoryProducts doc = ([], []) := by
  obtain ⟨hhref, hcat⟩ := h
  have h1 : docFind (fun n _ =>
      n.tagIs "a" && attrEq n "data-grid-span" "1" && attrStarts n "href" "/products/") doc = [] :=
    docFind_eq_nil _ _ (fun n hn _ => by simp [hhref n hn])
  have h2 : docFind (fun n _ => isProductLink n) doc = [] :=
    docFind_eq_nil _ _ (fun n hn _ => by simp [isProductLink, hhref n hn])
  have h3 : docFind (fun n _ => n.tagIs "a" && attrStarts n "href" "/categories/") doc = [] :=
    docFind_eq_nil _ _ (fun n hn _ => by simp [hcat n hn])
  unfold ParseCategoryProducts parseCategoryProductCards parseCategoryRelatedCategories
  rw [h1, h2, h3]
  rfl

/-- C1 component: `ParseSearchResults` on an entity-free page reports an
error instead of empty success. -/
theorem parseSearchResults_noEntities (raw : String) (doc : Node) (h : NoSearchEntities raw doc) :
    ParseSearchResults raw doc = .error noSearchResultsMsg := by
  obtain ⟨hcf, hmarker, hhref⟩ := h
  have hblocks : scanAll matchSearchBlock raw.data = [] := by
    unfold scanAll
    refine scanAllAux_eq_nil _ _ _ (fun k => ?_)
    exact matchSearchBlock_none _ (idxOfChars_none _ _ hmarker k)
  have hhydr : parseHydrationSearchProducts raw = [] := by
    unfold parseHydrationSearchProducts
    rw [hblocks]
    rfl
  have hlinks : docFind (fun n ctx =>
      isProductLink n && ctxAny ctx (fun a => a.tagIs "main")) doc = [] :=
    docFind_eq_nil _ _ (fun n hn ctx => by simp [isProductLink, hhref n hn])
  unfold ParseSearchResults
  rw [hcf]
  simp only [Bool.false_eq_true, if_false, hhydr, hlinks]
  rfl

theorem socialLinksLoop_skips (sel : Sel)
    (hsel : ∀ e ∈ sel,
      (match e.1.attrVal "href" with
       | some h => containsStr (trimStr h) "linkedin.com" || containsStr (trimStr h) "x.com" ||
           containsStr (trimStr h) "twitter.com"
       | none => false) = false) :
    ∀ links seen, socialLinksLoop sel links seen = links := by
  induction sel with
  | nil => intro links seen; rfl
  | cons e rest ih =>
    intro links seen
    have he := hsel e (List.mem_cons_self _ _)
    have hrest : ∀ e' ∈ rest, _ := fun e' he' => hsel e' (List.mem_cons_of_mem _ he')
    cases hv : e.1.attrVal "href" with
    | none =>
      rw [socialLinksLoop, hv]
      exact ih hrest links seen
    | some href =>
      rw [hv] at he
      rw [socialLinksLoop]
      simp only [hv]
      by_cases h0 : trimStr href = ""
      · rw [if_pos h0]
        exact ih hrest links seen
      · rw [if_neg h0]
        by_cases h1 : containsStr (trimStr href) "producthunt.com" = true
        · rw [if_pos h1]
          exact ih hrest links seen
        · rw [if_neg h1]
          have he' : (containsStr (trimStr href) "linkedin.com" ||
              containsStr (trimStr href) "x.com" ||
              containsStr (trimStr href) "twitter.com") = false := he
          rw [if_neg (by rw [he']; exact Bool.false_ne_true)]
          exact ih hrest links seen

theorem makerCommentLoop_skips (sel : Sel)
    (hsel : ∀ e ∈ sel, trimStr e.1.textContent ≠ "Maker Comment") :
    makerCommentLoop sel = "" := by
  induction sel with
  | nil => rfl
  | cons e rest ih =>
    rw [makerCommentLoop]
    rw [if_pos (hsel e (List.mem_cons_self _ _))]
    exact ih (fun e' he' => hsel e' (List.mem_cons_of_mem _ he'))

/-- C1 component: `ParseProductDetail` on an entity-free page is the
all-zero detail. -/
theorem parseProductDetail_noEntities (doc : Node) (rawHtml : String)
    (payloads : List GoJson) (h : NoDetailEntities doc rawHtml payloads) :
    ParseProductDetail doc rawHtml payloads = blankDetail := by
  obtain ⟨hhd, hcan, hweb, htop, hsoc, hh2, hmeta, hlinkauth, hfeat, hpro, hprice, hpl⟩ := h
  subst hpl
  have h1 : docFind (fun n _ => attrEq n "data-test" "header") doc = [] :=
    docFind_eq_nil _ _ (fun n hn _ => hhd n hn)
  have h2 : docFind (fun n _ => n.tagIs "link" && attrEq n "rel" "canonical") doc = [] :=
    docFind_eq_nil _ _ (fun n hn _ => hcan n hn)
  have h3 : docFind (fun n _ => n.tagIs "a" && attrEq n "data-test" "visit-website-button") doc = [] :=
    docFind_eq_nil _ _ (fun n hn _ => hweb n hn)
  have h4 : docFind (fun n _ => n.tagIs "a" && attrStarts n "href" "/topics/") doc = [] :=
    docFind_eq_nil _ _ (fun n hn _ => htop n hn)
  have h5 : parseSocialLinks doc = [] := by
    unfold parseSocialLinks
    exact socialLinksLoop_skips _
      (fun e he => hsoc e.1 (findCtx_mem _ doc [] e he).1) [] []
  have h6 : parseMakerComment doc = "" := by
    unfold parseMakerComment
    refine makerCommentLoop_skips _ (fun e he => ?_)
    have hm := findCtx_mem _ doc [] e he
    exact hh2 e.1 hm.1 hm.2
  have h7 : docFind (fun n _ => n.tagIs "meta" && attrEq n "name" "author") doc = [] :=
    docFind_eq_nil _ _ (fun n hn _ => hmeta n hn)
  have h8 : docFind (fun n _ => n.tagIs "link" && attrEq n "rel" "author") doc = [] :=
    docFind_eq_nil _ _ (fun n hn _ => hlinkauth n hn)
  have h9 : parseLaunchDate rawHtml = none := by
    unfold parseLaunchDate scanAll
    rw [scanAllAux_eq_nil _ _ _
      (fun k => matchFeaturedAt_none _ (idxOfChars_none _ _ hfeat k))]
    rfl
  have h10 : parseProConTags rawHtml = [] := by
    unfold parseProConTags proConMatches scanAll
    rw [scanAllAux_eq_nil _ _ _
      (fun k => matchProConTag_none _ (idxOfChars_none _ _ hpro k))]
    rfl
  have h11 : parsePricing [] rawHtml = "" := by
    unfold parsePricing
    have : parsePricingFromJSONLD [] = none := rfl
    rw [this]
    unfold scanAll
    rw [scanAllAux_eq_nil _ _ _
      (fun k => matchBareIntPrice_none _ (idxOfChars_none _ _ hprice k))]
    rfl
  have h12 : parseSlugFromDoc doc = "" := by
    unfold parseSlugFromDoc
    rw [h2]
    rfl
  have h13 : parseDetailCategories doc = [] := by
    unfold parseDetailCategories
    rw [h4]
    rfl
  have h14 : parseMakerInfo doc = ("", "") := by
    unfold parseMakerInfo
    rw [h7, h8]
    rfl
  unfold ParseProductDetail
  rw [h1, h3, h5, h6, h9, h10, h11, h12, h13, h14]
  rfl

/-- C1 counterexample: on an empty-body page, the search parser returns a
non-nil error instead of an empty collection with a nil error (the other
three parsers do return empty results successfully). -/
theorem C1_empty_input_counterexample :
    ParseSearchResults "" emptyFixtureDoc = .error noSearchResultsMsg ∧
    noSearchResultsMsg = "no parseable search results from producthunt search page" ∧
    ParseLeaderboard "" emptyFixtureDoc = [] ∧
    ParseCategoryProducts emptyFixtureDoc = ([], []) ∧
    ParseProductDetail emptyFixtureDoc "" [] = blankDetail :=
  ⟨rfl, rfl, rfl, rfl, rfl⟩

/-- C1 (amended): on inputs that parse as a document but contain no
recognizable entities, `ParseLeaderboard`, `ParseCategoryProducts` and
`ParseProductDetail` return an empty collection / all-zero detail with a
nil error; `ParseSearchResults` instead treats zero results as a failure
and returns the non-nil "no parseable search results" error. -/
theorem C1_empty_input_behavior :
    (∀ (raw : String) (doc : Node), NoLbEntities raw doc → ParseLeaderboard raw doc = []) ∧
    (∀ doc : Node, NoCatEntities doc → ParseCategoryProducts doc = ([], [])) ∧
    (∀ (doc : Node) (rawHtml : String) (payloads : List GoJson),
      NoDetailEntities doc rawHtml payloads → ParseProductDetail doc rawHtml payloads = blankDetail) ∧
    (∀ (raw : String) (doc : Node), NoSearchEntities raw doc →
      ParseSearchResults raw doc = .error noSearchResultsMsg) :=
  ⟨parseLeaderboard_noEntities, parseCategoryProducts_noEntities,
   parseProductDetail_noEntities, parseSearchResults_noEntities⟩

/-- Witness for C1 at the concrete empty-body fixture. -/
theorem C1_empty_input_behavior_witness :
    ParseLeaderboard "" emptyFixtureDoc = [] ∧
    ParseCategoryProducts emptyFixtureDoc = ([], []) ∧
    ParseProductDetail emptyFixtureDoc "" [] = blankDetail ∧
    ParseSearchResults "" emptyFixtureDoc = .error noSearchResultsMsg := by
  refine ⟨C1_empty_input_behavior.1 "" emptyFixtureDoc ?_,
    C1_empty_input_behavior.2.1 emptyFixtureDoc ?_,
    C1_empty_input_behavior.2.2.1 emptyFixtureDoc "" [] ?_,
    C1_empty_input_behavior.2.2.2 "" emptyFixtureDoc ?_⟩
  · exact ⟨by decide, by decide, by decide⟩
  · exact ⟨by decide, by decide⟩
  · refine ⟨by decide, by decide, by decide, by decide, by decide, by decide, by decide,
      by decide, by decide, by decide, by decide, rfl⟩
  · exact ⟨by decide, by decide, by decide⟩

end Phtui
